import Mathlib

/-!
# Verification of the chat identity-normalization and deduplication engine

This file gives a shallow embedding, in Lean 4, of the core of the
`wpp-manager-backend` repository: the JID classifier/normalizer, the chat
deduplicator, the external contact-lookup resolution pass, the per-instance
chat fan-out, and the message merge loop (all from the messages controller
source file).  JavaScript strings are modelled as Lean `String`s (operating on
their `List Char` data), JS `Map`/`Set` objects as insertion-ordered
association lists, and absent string fields as `""` (which is exactly how the
`x || y` fallback chains in the source treat them).  Fields whose runtime
value can be a number, a `{low, high}` pair, a string, or absent are modelled
by the `JsTs` type below.

Theorems at the end of the file settle the frozen specification claims.
-/

namespace Wpp

/-! ## JS string primitives used by the source -/

/-- Splits a character list at the first occurrence of `sep`.  Returns
`some (before, fromSep)` where `fromSep` starts with `sep`, mirroring
`s.indexOf(sep)` followed by `s.slice(0, i)` / `s.slice(i)` in the source;
`none` when `sep` does not occur (JS `indexOf` returning `-1`). -/
def splitAtChar (sep : Char) : List Char → Option (List Char × List Char)
  | [] => none
  | c :: cs =>
    if c = sep then some ([], c :: cs)
    else (splitAtChar sep cs).map (fun p => (c :: p.1, p.2))

/-- `s.endsWith(suffix)` on JS strings. -/
def strEndsWith (s suffix : String) : Bool :=
  suffix.data.isSuffixOf s.data

/-- `s.startsWith(prefix)` on JS strings. -/
def strStartsWith (s p : String) : Bool :=
  p.data.isPrefixOf s.data

/-- JS whitespace test for `String.prototype.trim`. -/
def isWsChar (c : Char) : Bool :=
  c = ' ' || c = '\t' || c = '\n' || c = '\r'

/-- `s.trim()`. -/
def trimChars (l : List Char) : List Char :=
  ((l.dropWhile isWsChar).reverse.dropWhile isWsChar).reverse

/-- `s.trim().toLowerCase()`, the normalization applied to display names and
push names before comparison in the deduplicator's name-matching pass. -/
def normName (s : String) : String :=
  String.mk ((trimChars s.data).map Char.toLower)

/-- `parseInt(s, 10)`: skip leading whitespace, optional sign, then leading
decimal digits; `none` models `NaN`. -/
def jsParseInt (s : String) : Option Int :=
  let l := s.data.dropWhile isWsChar
  let signAndRest : Int × List Char :=
    match l with
    | '-' :: rest => (-1, rest)
    | '+' :: rest => (1, rest)
    | _ => (1, l)
  let ds := signAndRest.2.takeWhile Char.isDigit
  if ds = [] then none
  else some (signAndRest.1 * ((ds.foldl (fun acc c => acc * 10 + (c.toNat - '0'.toNat)) 0 : Nat) : Int))

/-! ## Identifier classifier & normalizer (`isStandardUserJid`,
`isGroupOrBroadcastJid`, `isLidJid`, `extractPhoneFromJid`,
`normalizeBrazilianNumber`, `normalizeJid`, `getJidVariations`) -/

/-- `isStandardUserJid`: a regular WhatsApp contact JID. -/
def isStandardUserJid (jid : String) : Bool :=
  strEndsWith jid "@s.whatsapp.net"

/-- `isGroupOrBroadcastJid`: group chats and the status broadcast. -/
def isGroupOrBroadcastJid (jid : String) : Bool :=
  strEndsWith jid "@g.us" || jid = "status@broadcast"

/-- `isLidJid`: WhatsApp Linked Identifier format. -/
def isLidJid (jid : String) : Bool :=
  strEndsWith jid "@lid"

/-- `extractPhoneFromJid`: the digits before `@`; for `@lid` JIDs the part
before the `:deviceId` suffix. Returns `(phone, domain)`, domain including
the `@` (or `""` when the JID has no `@`). -/
def extractPhoneFromJid (jid : String) : String × String :=
  match splitAtChar '@' jid.data with
  | none => (jid, "")
  | some (rawLocal, domainL) =>
    let domain := String.mk domainL
    if domain = "@lid" then
      match splitAtChar ':' rawLocal with
      | some (phoneL, _) => (String.mk phoneL, domain)
      | none => (String.mk rawLocal, domain)
    else (String.mk rawLocal, domain)

/-- `normalizeBrazilianNumber`: adds the Brazilian 9th digit to a 12-digit
number starting with country code 55; other numbers unchanged. -/
def normalizeBrazilianNumber (phone : String) : String :=
  if ¬ strStartsWith phone "55" then phone
  else if phone.data.length = 12 then
    String.mk ('5' :: '5' :: ((phone.data.drop 2).take 2 ++ '9' :: phone.data.drop 4))
  else phone

/-- The `/^\d{10,15}$/` test guarding phone-based `@lid` normalization. -/
def isPhonePattern (phone : String) : Bool :=
  phone.data.all Char.isDigit && decide (10 ≤ phone.data.length) && decide (phone.data.length ≤ 15)

/-- `normalizeJid`: canonical form of a JID.  Phone-bearing `@lid` JIDs map to
`@s.whatsapp.net`; `@s.whatsapp.net` locals get the Brazilian rule; anything
else is returned unchanged. -/
def normalizeJid (jid : String) : String :=
  if jid = "" then jid
  else match splitAtChar '@' jid.data with
  | none => jid
  | some (rawLocal, _) =>
    let pd := extractPhoneFromJid jid
    if pd.2 = "@lid" then
      if rawLocal.contains ':' && isPhonePattern pd.1 then
        normalizeBrazilianNumber pd.1 ++ "@s.whatsapp.net"
      else jid
    else if pd.2 = "@s.whatsapp.net" then
      normalizeBrazilianNumber pd.1 ++ pd.2
    else jid

/-- `getJidVariations`: all plausible JID variants of a phone JID (both the
12- and 13-digit Brazilian forms). -/
def getJidVariations (jid : String) : List String :=
  if jid = "" then [jid]
  else match splitAtChar '@' jid.data with
  | none => [jid]
  | some (numberL, domainL) =>
    let number := String.mk numberL
    let domain := String.mk domainL
    if domain ≠ "@s.whatsapp.net" || ¬ strStartsWith number "55" then [jid]
    else if numberL.length = 13 && numberL.get? 4 = some '9' then
      [jid, String.mk ('5' :: '5' :: ((numberL.drop 2).take 2 ++ numberL.drop 5 ++ domainL))]
    else if numberL.length = 12 then
      [jid, String.mk ('5' :: '5' :: ((numberL.drop 2).take 2 ++ '9' :: numberL.drop 4 ++ domainL))]
    else [jid]

/-! ## Chat data model

A raw chat record as consumed by the deduplicator.  String-valued fields that
the source reads through `x || y || ''` fallbacks are plain `String`s with
`""` for "absent" (empty JS strings and absent fields behave identically in
every such read).  `payload` stands for all remaining record fields, which
the source copies around opaquely via object spread. -/

/-- Runtime shape of a timestamp-bearing field of the upstream chat object:
absent (`undefined`/`null`), an object with an optional `low` component, a
plain number, or a string. -/
inductive JsTs where
  | undef : JsTs
  | obj : Option Int → JsTs
  | num : Int → JsTs
  | str : String → JsTs
deriving DecidableEq, Repr

/-- The `lastMessage` sub-object: its `messageTimestamp` plus the rest of the
message payload (opaque to the engine). -/
structure LastMessage where
  messageTimestamp : JsTs := .undef
  payload : Nat := 0
deriving DecidableEq, Repr

/-- A chat record.  `updatedAtMs` models `new Date(chat.updatedAt).getTime()`
already performed: `some ms` iff `chat.updatedAt` is truthy and parses to a
non-`NaN` time, matching the only two ways the source consumes the field. -/
structure Chat where
  remoteJid : String := ""
  id : String := ""
  instanceName : String := ""
  name : String := ""
  pushName : String := ""
  unreadCount : Nat := 0
  lastMessage : Option LastMessage := none
  updatedAtMs : Option Int := none
  lastMsgTimestamp : JsTs := .undef
  conversationTimestamp : JsTs := .undef
  _allJids : Option (List String) := none
  payload : Nat := 0
deriving DecidableEq, Repr

/-- `chat.remoteJid || chat.id || ''`. -/
def rawJidOf (c : Chat) : String :=
  if c.remoteJid ≠ "" then c.remoteJid else c.id

/-- The value one timestamp field contributes in `getChatTimestamp`:
`some n` when the field makes that branch `return`, `none` when control
falls through to the next fallback.  (An object field returns its `low`
component whenever present; a number or numeric string returns only when
positive; everything else falls through.) -/
def tsFieldValue : JsTs → Option Int
  | .undef => none
  | .obj (some low) => some low
  | .obj none => none
  | .num n => if 0 < n then some n else none
  | .str s =>
    if s = "" then none
    else match jsParseInt s with
      | some n => if 0 < n then some n else none
      | none => none

/-- `chat.lastMessage?.messageTimestamp`. -/
def chatMsgTs (c : Chat) : JsTs :=
  match c.lastMessage with
  | none => .undef
  | some lm => lm.messageTimestamp

/-- `getChatTimestamp`: prefer `lastMessage.messageTimestamp`, then
`updatedAt` (converted to seconds), then the legacy field names, else 0. -/
def getChatTimestamp (c : Chat) : Int :=
  match tsFieldValue (chatMsgTs c) with
  | some n => n
  | none =>
    match c.updatedAtMs with
    | some ms => Int.fdiv ms 1000
    | none =>
      match tsFieldValue c.lastMsgTimestamp with
      | some n => n
      | none =>
        match tsFieldValue c.conversationTimestamp with
        | some n => n
        | none => 0

/-! ## Insertion-ordered association lists (JS `Map` semantics) -/

/-- `Map.get`. -/
def lookupA {α : Type} (k : String) : List (String × α) → Option α
  | [] => none
  | p :: rest => if p.1 = k then some p.2 else lookupA k rest

/-- `Map.set`: update in place when the key exists (its position is kept),
append at the end otherwise. -/
def setA {α : Type} (k : String) (v : α) : List (String × α) → List (String × α)
  | [] => [(k, v)]
  | p :: rest => if p.1 = k then (k, v) :: rest else p :: setA k v rest

/-- `Map.delete`. -/
def delA {α : Type} (k : String) : List (String × α) → List (String × α)
  | [] => []
  | p :: rest => if p.1 = k then rest else p :: delA k rest

/-! ## Chat deduplicator (`deduplicateChats`) -/

/-- A value of the deduplication map: the merged chat plus every raw JID seen
for its canonical key. -/
structure Entry where
  chat : Chat
  allJids : List String
deriving DecidableEq, Repr

/-- State after processing a prefix of the raw chat list in the first
(key-)pass: the map keyed by `normalizedJid + '|' + instanceName`, and the
set of keys that have seen an `@s.whatsapp.net` raw JID.  The set is a list
accumulating members; only membership is ever consulted. -/
structure KeyPassState where
  map : List (String × Entry)
  hasStandardJid : List String
deriving Repr

/-- One iteration of the first-pass loop of `deduplicateChats`. -/
def keyPassStep (st : KeyPassState) (chat : Chat) : KeyPassState :=
  let rawJid := rawJidOf chat
  if rawJid = "" then st
  else
    let normalized := normalizeJid rawJid
    let key := normalized ++ "|" ++ chat.instanceName
    let isStandard := isStandardUserJid rawJid
    let hasStd := if isStandard then st.hasStandardJid ++ [key] else st.hasStandardJid
    match lookupA key st.map with
    | none =>
      ⟨setA key ⟨{ chat with _allJids := some [rawJid] }, [rawJid]⟩ st.map, hasStd⟩
    | some existing =>
      let allJids1 := existing.allJids ++ [rawJid]
      let chat1 := { existing.chat with _allJids := some allJids1 }
      let existingTs := getChatTimestamp chat1
      let newTs := getChatTimestamp chat
      let chat2 :=
        if existingTs < newTs then
          -- new chat is more recent: replace but keep merged data
          { chat with _allJids := some allJids1,
                      unreadCount := chat1.unreadCount + chat.unreadCount }
        else
          -- existing is more recent: just add unread
          { chat1 with unreadCount := chat1.unreadCount + chat.unreadCount }
      let chat3 :=
        if isStandard && !(isStandardUserJid chat2.remoteJid) then
          { chat2 with remoteJid := rawJid }
        else chat2
      ⟨setA key ⟨chat3, allJids1⟩ st.map, hasStd⟩

/-- The whole first pass. -/
def keyPass (chats : List Chat) : KeyPassState :=
  chats.foldl keyPassStep ⟨[], []⟩

/-- Keys of surviving `@lid` entries with no standard JID for the same key
(in map iteration order), computed between the two passes. -/
def unmatchedLidKeysOf (st : KeyPassState) : List String :=
  (st.map.filter
    (fun p => isLidJid (rawJidOf p.2.chat) && !(st.hasStandardJid.contains p.1))).map (·.1)

/-- `standardByInstance.get(inst) || []`: keys of the non-`@lid` entries of
one instance, in map iteration order, frozen before the second pass runs. -/
def standardKeysFor (st : KeyPassState) (inst : String) : List String :=
  (st.map.filter
    (fun p => !(isLidJid (rawJidOf p.2.chat)) && p.2.chat.instanceName == inst)).map (·.1)

/-- The name-match test of the second pass: case-insensitive equality of the
trimmed names, each side required non-empty, on `name` or on `pushName`. -/
def nameMatches (lidChat stdChat : Chat) : Bool :=
  let lidName := normName lidChat.name
  let lidPush := normName lidChat.pushName
  let stdName := normName stdChat.name
  let stdPush := normName stdChat.pushName
  (lidName != "" && stdName != "" && lidName == stdName)
    || (lidPush != "" && stdPush != "" && lidPush == stdPush)

/-- Folding an unresolved `@lid` entry into a matched standard entry:
union of raw JIDs, summed unread counts, adoption of the `@lid` chat's
`lastMessage` when strictly more recent. -/
def mergeLidIntoStd (lidEntry std : Entry) : Entry :=
  let newAll := lidEntry.allJids.foldl
    (fun acc j => if acc.contains j then acc else acc ++ [j]) std.allJids
  let c1 := { std.chat with
    _allJids := some newAll,
    unreadCount := std.chat.unreadCount + lidEntry.chat.unreadCount }
  let c2 :=
    if getChatTimestamp c1 < getChatTimestamp lidEntry.chat
        && lidEntry.chat.lastMessage.isSome then
      { c1 with lastMessage := lidEntry.chat.lastMessage }
    else c1
  ⟨c2, newAll⟩

/-- The inner candidate loop of the second pass: first standard entry (in
the frozen candidate order) whose name or push name matches wins; on a match
the maps is updated and the `@lid` entry deleted.  `none` when no candidate
matches. -/
def tryMatchCandidates (mp : List (String × Entry)) (lidKey : String) (lidEntry : Entry) :
    List String → Option (List (String × Entry))
  | [] => none
  | k :: rest =>
    match lookupA k mp with
    | none => tryMatchCandidates mp lidKey lidEntry rest
    | some std =>
      if nameMatches lidEntry.chat std.chat then
        some (delA lidKey (setA k (mergeLidIntoStd lidEntry std) mp))
      else tryMatchCandidates mp lidKey lidEntry rest

/-- State threaded through the second (name-)pass: the evolving map and the
per-instance unmatched `@lid` collection. -/
structure NamePassState where
  map : List (String × Entry)
  unmatched : List (String × List String)
deriving Repr

/-- Appends JIDs to an instance's unmatched bucket, creating it on first
use (`unmatchedLidsByInstance` updates). -/
def addUnmatched (u : List (String × List String)) (inst : String) (jids : List String) :
    List (String × List String) :=
  match lookupA inst u with
  | some existing => setA inst (existing ++ jids) u
  | none => u ++ [(inst, jids)]

/-- One iteration of the second-pass loop over the unresolved `@lid` keys. -/
def namePassStep (stdKeys : String → List String) (st : NamePassState) (lidKey : String) :
    NamePassState :=
  match lookupA lidKey st.map with
  | none => st
  | some lidEntry =>
    let lidChat := lidEntry.chat
    let lidInstance := lidChat.instanceName
    let attempt :=
      if normName lidChat.name != "" || normName lidChat.pushName != "" then
        tryMatchCandidates st.map lidKey lidEntry (stdKeys lidInstance)
      else none
    match attempt with
    | some mp => ⟨mp, st.unmatched⟩
    | none =>
      ⟨delA lidKey st.map, addUnmatched st.unmatched lidInstance lidEntry.allJids⟩

/-- The result of `deduplicateChats`. -/
structure DedupResult where
  chats : List Chat
  unmatchedLidsByInstance : List (String × List String)
deriving Repr

/-- `deduplicateChats`: key pass, name pass, unresolved collection, and the
final filter dropping `@lid`-represented entries whose key saw a standard
JID. -/
def deduplicateChats (chats : List Chat) : DedupResult :=
  let kp := keyPass chats
  let np := (unmatchedLidKeysOf kp).foldl (namePassStep (standardKeysFor kp)) ⟨kp.map, []⟩
  let result := (np.map.filter
    (fun p => !(isLidJid (rawJidOf p.2.chat) && kp.hasStandardJid.contains p.1))).map (·.2.chat)
  ⟨result, np.unmatched⟩

/-! ## Message merge (`getMessages` merge loop) -/

/-- A fetched message record: `key.id`, top-level `id`, and the rest of the
payload (opaque). `""` models an absent id. -/
structure MsgRecord where
  keyId : String := ""
  topId : String := ""
  payload : Nat := 0
deriving DecidableEq, Repr

/-- `record.key?.id || record.id`. -/
def recId (r : MsgRecord) : String :=
  if r.keyId ≠ "" then r.keyId else r.topId

/-- One iteration of the merge loop: `(seenIds, mergedRecords)` updated by one
record; duplicates by extractable id are dropped, id-less records kept. -/
def mergeStep (acc : List String × List MsgRecord) (r : MsgRecord) :
    List String × List MsgRecord :=
  let kid := recId r
  if kid ≠ "" && acc.1.contains kid then acc
  else ((if kid ≠ "" then acc.1 ++ [kid] else acc.1), acc.2 ++ [r])

/-- The merge of all per-JID record arrays, in fetch-completion order. -/
def mergeMessageArrays (arrays : List (List MsgRecord)) : List MsgRecord :=
  (arrays.foldl (fun acc records => records.foldl mergeStep acc) ([], [])).2

/-! ## Instance fan-out (`getChats` steps 4–8) -/

/-- A user instance as prepared by `getChats` step 2: the full (prefixed)
Evolution API name and the user-facing display name. -/
structure InstanceRef where
  fullName : String := ""
  displayName : String := ""
deriving DecidableEq, Repr

/-- Outcome of one `POST /chat/findChats/:name` call: a thrown network error,
a non-success HTTP status, a non-array body, or a chat array. -/
inductive FetchChatsResult where
  | netError : FetchChatsResult
  | httpFail : FetchChatsResult
  | nonArray : FetchChatsResult
  | ok : List Chat → FetchChatsResult
deriving Repr

/-- Result of one per-instance branch of the fan-out. -/
structure InstanceResult where
  chats : List Chat
  connected : Bool
  name : String
deriving DecidableEq, Repr

/-- One per-instance branch: failures degrade to an empty list plus a
disconnected flag; successful arrays are filtered to individual chats and
tagged with the instance display name. -/
def fetchInstanceChats (env : String → FetchChatsResult) (inst : InstanceRef) :
    InstanceResult :=
  match env inst.fullName with
  | .netError => ⟨[], false, inst.displayName⟩
  | .httpFail => ⟨[], false, inst.displayName⟩
  | .nonArray => ⟨[], true, inst.displayName⟩
  | .ok chats =>
    ⟨(chats.filter (fun c => !(isGroupOrBroadcastJid (rawJidOf c)))).map
        (fun c => { c with instanceName := inst.displayName }),
      true, inst.displayName⟩

/-! ## External contact-lookup resolution (`resolveUnmatchedLids`) -/

/-- A Baileys contact as consumed by `resolveUnmatchedLids`. -/
structure Contact where
  lid : String := ""
  lidJid : String := ""
  phoneNumber : String := ""
  id : String := ""
  remoteJid : String := ""
deriving DecidableEq, Repr

/-- The LID → phone-JID map built from one contacts response. -/
def buildLidToPhone (contacts : List Contact) : List (String × String) :=
  contacts.foldl
    (fun m contact =>
      let lid := if contact.lid ≠ "" then contact.lid else contact.lidJid
      let phone :=
        if contact.phoneNumber ≠ "" then contact.phoneNumber
        else
          let i := if contact.id ≠ "" then contact.id else contact.remoteJid
          if strEndsWith i "@s.whatsapp.net" then i else ""
      if lid ≠ "" && phone ≠ "" then setA lid phone m else m)
    []

/-- `chats.find(pred)` followed by an in-place mutation of the found element:
applies `f` to the first chat satisfying `pred`, leaving the list unchanged
when none does. -/
def updateFirstWhere (pred : Chat → Bool) (f : Chat → Chat) : List Chat → List Chat
  | [] => []
  | c :: rest => if pred c then f c :: rest else c :: updateFirstWhere pred f rest

/-- Folding one resolved `lidJid ↦ phoneJid` mapping into the chat list:
find the chat of that instance owning any Brazilian variant of the phone JID
and add the `@lid` JID to its `_allJids`. -/
def mergeResolvedLid (instanceName lidJid phoneJid : String) (chats : List Chat) :
    List Chat :=
  let phoneVariations := getJidVariations phoneJid
  updateFirstWhere
    (fun c =>
      c.instanceName == instanceName
        && (phoneVariations.contains c.remoteJid
          || (match c._allJids with
              | some js => js.any (fun j => phoneVariations.contains j)
              | none => false)))
    (fun c =>
      let all :=
        match c._allJids with
        | none => [if c.remoteJid ≠ "" then c.remoteJid else c.id]
        | some js => js
      { c with _allJids := some (if all.contains lidJid then all else all ++ [lidJid]) })
    chats

/-- One instance's iteration of `resolveUnmatchedLids`.  `cenv fullName`
models the `findContacts` call: `none` covers every locally-recovered failure
(instance not found, thrown fetch, non-success status, non-array body). -/
def resolveInstanceLids (cenv : String → Option (List Contact))
    (userInstances : List InstanceRef) (chats : List Chat)
    (bucket : String × List String) : List Chat :=
  let instanceName := bucket.1
  match userInstances.find? (fun i => i.displayName == instanceName) with
  | none => chats
  | some inst =>
    match cenv inst.fullName with
    | none => chats
    | some contacts =>
      let lidToPhone := buildLidToPhone contacts
      bucket.2.foldl
        (fun cs lidJid =>
          match lookupA lidJid lidToPhone with
          | none => cs
          | some phoneJid => mergeResolvedLid instanceName lidJid phoneJid cs)
        chats

/-- `resolveUnmatchedLids`: resolves each instance's unmatched `@lid` JIDs
via the contacts endpoint and merges the mappings into the chat list. -/
def resolveUnmatchedLids (cenv : String → Option (List Contact)) (chats : List Chat)
    (unmatched : List (String × List String)) (userInstances : List InstanceRef) :
    List Chat :=
  unmatched.foldl (resolveInstanceLids cenv userInstances) chats

/-! ## Final sort and the aggregate operation -/

/-- Stable insertion of a chat into a list sorted by descending timestamp:
the inserted (originally earlier) chat goes before later chats of equal
timestamp, which is how the stable `Array.prototype.sort` with comparator
`getChatTimestamp(b) - getChatTimestamp(a)` orders them. -/
def insertByTs (c : Chat) : List Chat → List Chat
  | [] => [c]
  | d :: rest =>
    if getChatTimestamp d ≤ getChatTimestamp c then c :: d :: rest
    else d :: insertByTs c rest

/-- The final descending-timestamp sort (a stable sort, modelling the JS
engine's stable `sort`). -/
def sortChats (l : List Chat) : List Chat :=
  l.foldr insertByTs []

/-- The response body of `GET /messages/chats`. -/
structure AggregateResult where
  chats : List Chat
  instances : List (String × Bool)
  totalInstances : Nat
  connectedInstances : Nat
deriving Repr

/-- `getChats` steps 4–8 over a prepared instance list: concurrent fan-out
(joined results in instance order), aggregation, deduplication, contact
resolution, and the final sort. -/
def getChatsCore (env : String → FetchChatsResult)
    (cenv : String → Option (List Contact)) (userInstances : List InstanceRef) :
    AggregateResult :=
  let results := userInstances.map (fetchInstanceChats env)
  let rawChats := results.flatMap (·.chats)
  let instanceStatuses := results.map (fun r => (r.name, r.connected))
  let d := deduplicateChats rawChats
  let allChats :=
    if d.unmatchedLidsByInstance ≠ [] then
      resolveUnmatchedLids cenv d.chats d.unmatchedLidsByInstance userInstances
    else d.chats
  let sorted := sortChats allChats
  ⟨sorted, instanceStatuses, userInstances.length,
    (instanceStatuses.filter (·.2)).length⟩

/-! ## Statement helpers -/

/-- The canonical key of a chat, as the string the deduplication map is keyed
by. -/
def chatKeyOf (c : Chat) : String :=
  normalizeJid (rawJidOf c) ++ "|" ++ c.instanceName

/-- A chat with its `_allJids` field cleared: two chats are equal after
`eraseAllJids` exactly when every field other than the address set agrees. -/
def eraseAllJids (c : Chat) : Chat :=
  { c with _allJids := none }

/-- The canonical identity pair of an output entry: its normalized
representative address together with its instance name. -/
def canonicalPairOf (c : Chat) : String × String :=
  (normalizeJid (rawJidOf c), c.instanceName)

/-! ## Concrete records used by counterexamples and failing-input
evaluations -/

/-- Chat with a non-standard-suffix address whose canonical key string
collides with `c1ChatB`'s because the instance name of `c1ChatB` contains the
key separator `'|'`. -/
def c1ChatA : Chat := { remoteJid := "10@s.whatsapp.net|x", instanceName := "y" }

/-- Standard chat of instance `"x|y"`; its key `"10@s.whatsapp.net|x|y"`
equals `c1ChatA`'s. -/
def c1ChatB : Chat := { remoteJid := "10@s.whatsapp.net", instanceName := "x|y" }

/-- Standard chat of instance `"y"`, a separate key. -/
def c1ChatC : Chat := { remoteJid := "10@s.whatsapp.net", instanceName := "y" }

/-- Standard chat: canonical Brazilian number, unread 1, older message. -/
def c4Std : Chat :=
  { remoteJid := "5511999998888@s.whatsapp.net", instanceName := "A", unreadCount := 1,
    lastMessage := some { messageTimestamp := .num 10 } }

/-- Phone-bearing `@lid` chat for the same number and instance, unread 2,
newer message; it normalizes to the same canonical key as `c4Std`. -/
def c4Lid : Chat :=
  { remoteJid := "5511999998888:1@lid", instanceName := "A", unreadCount := 2,
    lastMessage := some { messageTimestamp := .num 20 } }

/-- Phone-bearing `@lid` chat inserted first in the C10 counterexample. -/
def c10Lid : Chat :=
  { remoteJid := "5511999998888:1@lid", instanceName := "A", unreadCount := 1,
    payload := 11, lastMessage := some { messageTimestamp := .num 10 } }

/-- Standard chat with the same canonical key and an equal timestamp. -/
def c10Std : Chat :=
  { remoteJid := "5511999998888@s.whatsapp.net", instanceName := "A", unreadCount := 2,
    payload := 22, lastMessage := some { messageTimestamp := .num 10 } }

/-- Standard record for the C5 witness. -/
def c5Std : Chat :=
  { remoteJid := "447700900123@s.whatsapp.net", instanceName := "A", name := "Alice",
    unreadCount := 4 }

/-- Opaque linked record for the C5 witness, matching `c5Std` by name. -/
def c5Lid : Chat :=
  { remoteJid := "9876543210987654@lid", instanceName := "A", name := " ALICE ",
    unreadCount := 5 }

/-! ## Additional statement-level definitions and concrete records -/

/-- Identity-relevant fields of a deduplication entry: the fields the
name-pass reads and never writes. -/
def sameIdent (e e₀ : Entry) : Prop :=
  e.chat.name = e₀.chat.name ∧ e.chat.pushName = e₀.chat.pushName
    ∧ e.chat.instanceName = e₀.chat.instanceName
    ∧ rawJidOf e.chat = rawJidOf e₀.chat

def c6Solo : Chat :=
  { remoteJid := "111222333444555@lid", instanceName := "A", name := "zzz",
    unreadCount := 1 }

def c6A : Chat :=
  { remoteJid := "111222333444555@lid", instanceName := "A", name := "zzz",
    unreadCount := 1,
    lastMessage := some { messageTimestamp := JsTs.num 10 } }

def c6B : Chat :=
  { remoteJid := "111222333444555@lid", instanceName := "A", name := "Bob",
    unreadCount := 2,
    lastMessage := some { messageTimestamp := JsTs.num 20 } }

def c6Std : Chat :=
  { remoteJid := "447700900123@s.whatsapp.net", instanceName := "A", name := "bob",
    unreadCount := 4 }

def c8GoodChat : Chat :=
  { remoteJid := "447700900123@s.whatsapp.net", instanceName := "ignored",
    name := "Alice", unreadCount := 2 }

def c8Env : String → FetchChatsResult :=
  fun s => if s = "full_good" then .ok [c8GoodChat] else .netError

def c8Cenv : String → Option (List Contact) := fun _ => none

def c8Good : InstanceRef := { fullName := "full_good", displayName := "Good" }

def c8Bad : InstanceRef := { fullName := "full_bad", displayName := "Bad" }


/-! ## Basic string facts -/

theorem string_eq_of_data {a b : String} (h : a.data = b.data) : a = b := by
  calc a = String.mk a.data := rfl
    _ = String.mk b.data := by rw [h]
    _ = b := rfl

theorem string_ne_empty_of_data {s : String} (h : s.data ≠ []) : s ≠ "" := by
  intro hs; exact h (by rw [hs])

theorem splitAtChar_cons_ne {sep c : Char} {cs : List Char} (h : c ≠ sep) :
    splitAtChar sep (c :: cs) = (splitAtChar sep cs).map (fun p => (c :: p.1, p.2)) := by
  rw [splitAtChar, if_neg h]

theorem splitAtChar_append {sep : Char} {l r : List Char} (h : sep ∉ l) :
    splitAtChar sep (l ++ sep :: r) = some (l, sep :: r) := by
  induction l with
  | nil =>
    rw [List.nil_append]
    simp [splitAtChar]
  | cons c cs ih =>
    have hc : c ≠ sep := fun hc => h (hc ▸ List.mem_cons_self c cs)
    have hcs : sep ∉ cs := fun hm => h (List.mem_cons_of_mem c hm)
    rw [List.cons_append, splitAtChar_cons_ne hc, ih hcs, Option.map_some']

theorem at_not_mem_of_digits {l : List Char} (h : l.all Char.isDigit = true) : '@' ∉ l := by
  intro hm
  have h2 := (List.all_eq_true.mp h) '@' hm
  exact absurd h2 (by decide)

theorem strStartsWith_55_iff {p : String} :
    strStartsWith p "55" = true ↔ p.data.take 2 = ['5', '5'] := by
  rw [strStartsWith, List.isPrefixOf_iff_prefix, List.prefix_iff_eq_take]
  exact ⟨fun h => h.symm, fun h => h.symm⟩

theorem data_append_std (p : String) :
    (p ++ "@s.whatsapp.net").data = p.data ++ '@' :: "s.whatsapp.net".data := by
  rw [String.data_append]

/-! ## Behavior of the normalizer on digit-only standard addresses -/

theorem extractPhoneFromJid_std (p : String) (hp : p.data.all Char.isDigit = true) :
    extractPhoneFromJid (p ++ "@s.whatsapp.net") = (p, "@s.whatsapp.net") := by
  have hsplit : splitAtChar '@' (p ++ "@s.whatsapp.net").data
      = some (p.data, '@' :: "s.whatsapp.net".data) := by
    rw [data_append_std]; exact splitAtChar_append (at_not_mem_of_digits hp)
  unfold extractPhoneFromJid
  rw [hsplit]
  rfl

theorem normalizeJid_std_digits (p : String) (hp : p.data.all Char.isDigit = true) :
    normalizeJid (p ++ "@s.whatsapp.net") = normalizeBrazilianNumber p ++ "@s.whatsapp.net" := by
  have hne : (p ++ "@s.whatsapp.net") ≠ "" := by
    apply string_ne_empty_of_data
    rw [data_append_std]; simp
  have hsplit : splitAtChar '@' (p ++ "@s.whatsapp.net").data
      = some (p.data, '@' :: "s.whatsapp.net".data) := by
    rw [data_append_std]; exact splitAtChar_append (at_not_mem_of_digits hp)
  unfold normalizeJid
  rw [if_neg hne, hsplit, extractPhoneFromJid_std p hp]
  rfl

theorem nbn_of_length12 {p : String} (h55 : strStartsWith p "55" = true)
    (hlen : p.data.length = 12) :
    normalizeBrazilianNumber p = String.mk (p.data.take 4 ++ '9' :: p.data.drop 4) := by
  rw [normalizeBrazilianNumber, if_neg (by rw [h55]; simp), if_pos hlen]
  have h2 : p.data.take 2 = ['5', '5'] := strStartsWith_55_iff.mp h55
  have h4 : p.data.take 4 = '5' :: '5' :: (p.data.drop 2).take 2 := by
    rw [show (4 : Nat) = 2 + 2 from rfl, List.take_add, h2]; rfl
  rw [h4]; rfl

theorem nbn_of_length_ne12 {p : String} (hlen : p.data.length ≠ 12) :
    normalizeBrazilianNumber p = p := by
  rw [normalizeBrazilianNumber]
  by_cases h : strStartsWith p "55" = true
  · rw [if_neg (by rw [h]; simp), if_neg hlen]
  · rw [if_pos (by simpa using h)]

/-- Length of the 13-digit local part produced from a 12-digit one. -/
theorem ninth_digit_data {p : String} (hlen : p.data.length = 12) :
    (String.mk (p.data.take 4 ++ '9' :: p.data.drop 4)).data.length = 13 := by
  simp [hlen, min_def]

theorem ninth_digit_digits {p : String} (hdig : p.data.all Char.isDigit = true) :
    (String.mk (p.data.take 4 ++ '9' :: p.data.drop 4)).data.all Char.isDigit = true := by
  rw [List.all_eq_true] at *
  intro c hc
  show c.isDigit = true
  rcases List.mem_append.mp hc with h | h
  · exact hdig c (List.take_subset _ _ h)
  · rcases List.mem_cons.mp h with rfl | h
    · decide
    · exact hdig c (List.drop_subset _ _ h)

/-! ## C2 — the Brazilian ninth-digit insertion and its idempotence -/

/-- **C2.** For every standard address whose local part is a 12-digit string
starting with country code 55, `normalizeJid` inserts the digit `9` after
position 4 of the local part, and is idempotent on its own output. -/
theorem c2_normalize_inserts_ninth_digit (p : String)
    (hdig : p.data.all Char.isDigit = true)
    (h55 : strStartsWith p "55" = true)
    (hlen : p.data.length = 12) :
    normalizeJid (p ++ "@s.whatsapp.net")
        = String.mk (p.data.take 4 ++ '9' :: p.data.drop 4) ++ "@s.whatsapp.net"
      ∧ normalizeJid (normalizeJid (p ++ "@s.whatsapp.net"))
        = normalizeJid (p ++ "@s.whatsapp.net") := by
  have h1 : normalizeJid (p ++ "@s.whatsapp.net")
      = String.mk (p.data.take 4 ++ '9' :: p.data.drop 4) ++ "@s.whatsapp.net" := by
    rw [normalizeJid_std_digits p hdig, nbn_of_length12 h55 hlen]
  refine ⟨h1, ?_⟩
  rw [h1, normalizeJid_std_digits _ (ninth_digit_digits hdig),
    nbn_of_length_ne12 (by rw [ninth_digit_data hlen]; decide)]

/-- Witness for C2 at the concrete legacy number `551187654321`. -/
theorem c2_witness :
    ("551187654321".data.all Char.isDigit = true
        ∧ strStartsWith "551187654321" "55" = true
        ∧ "551187654321".data.length = 12)
      ∧ normalizeJid ("551187654321" ++ "@s.whatsapp.net")
          = String.mk ("551187654321".data.take 4 ++ '9' :: "551187654321".data.drop 4)
              ++ "@s.whatsapp.net" :=
  ⟨⟨by decide, by decide, by decide⟩,
    (c2_normalize_inserts_ninth_digit "551187654321" (by decide) (by decide) (by decide)).1⟩

/-! ## C3 — variations of the two Brazilian spellings -/

theorem getJidVariations_twelve (p : String)
    (hdig : p.data.all Char.isDigit = true)
    (h55 : strStartsWith p "55" = true)
    (hlen : p.data.length = 12) :
    getJidVariations (p ++ "@s.whatsapp.net")
      = [p ++ "@s.whatsapp.net",
         String.mk (p.data.take 4 ++ '9' :: p.data.drop 4) ++ "@s.whatsapp.net"] := by
  have hne : (p ++ "@s.whatsapp.net") ≠ "" := by
    apply string_ne_empty_of_data
    rw [data_append_std]; simp
  have hsplit : splitAtChar '@' (p ++ "@s.whatsapp.net").data
      = some (p.data, '@' :: "s.whatsapp.net".data) := by
    rw [data_append_std]; exact splitAtChar_append (at_not_mem_of_digits hdig)
  have h2 : p.data.take 2 = ['5', '5'] := strStartsWith_55_iff.mp h55
  have h4 : p.data.take 4 = '5' :: '5' :: (p.data.drop 2).take 2 := by
    rw [show (4 : Nat) = 2 + 2 from rfl, List.take_add, h2]; rfl
  unfold getJidVariations
  rw [if_neg hne, hsplit]
  simp only [hlen, h55]
  norm_num
  apply string_eq_of_data
  rw [String.data_append, h4]
  simp [List.append_assoc]

theorem getJidVariations_thirteen (p : String)
    (hdig : p.data.all Char.isDigit = true)
    (h55 : strStartsWith p "55" = true)
    (hlen : p.data.length = 12) :
    getJidVariations (String.mk (p.data.take 4 ++ '9' :: p.data.drop 4) ++ "@s.whatsapp.net")
      = [String.mk (p.data.take 4 ++ '9' :: p.data.drop 4) ++ "@s.whatsapp.net",
         p ++ "@s.whatsapp.net"] := by
  set q : String := String.mk (p.data.take 4 ++ '9' :: p.data.drop 4) with hq
  have hqdata : q.data = p.data.take 4 ++ '9' :: p.data.drop 4 := rfl
  have htk4 : (p.data.take 4).length = 4 := by
    simp [hlen]
  have hqdig : q.data.all Char.isDigit = true := ninth_digit_digits hdig
  have hne : (q ++ "@s.whatsapp.net") ≠ "" := by
    apply string_ne_empty_of_data
    rw [data_append_std]; simp
  have hsplit : splitAtChar '@' (q ++ "@s.whatsapp.net").data
      = some (q.data, '@' :: "s.whatsapp.net".data) := by
    rw [data_append_std]; exact splitAtChar_append (at_not_mem_of_digits hqdig)
  have h2 : p.data.take 2 = ['5', '5'] := strStartsWith_55_iff.mp h55
  have hq55 : strStartsWith q "55" = true := by
    rw [strStartsWith_55_iff, hqdata, List.take_append_of_le_length (by rw [htk4]; decide),
      List.take_take]
    simpa using h2
  have hqlen : q.data.length = 13 := ninth_digit_data hlen
  have hget : q.data.get? 4 = some '9' := by
    rw [hqdata, List.get?_append_right (by rw [htk4]), htk4]
    simp
  unfold getJidVariations
  rw [if_neg hne, hsplit]
  simp only [hqlen, hq55, hget]
  norm_num
  apply string_eq_of_data
  rw [String.data_append]
  have hdrop2 : q.data.drop 2 = (p.data.drop 2).take 2 ++ '9' :: p.data.drop 4 := by
    rw [hqdata, List.drop_append_of_le_length (by rw [htk4]; decide)]
    congr 1
    rw [show (4 : Nat) = 2 + 2 from rfl, List.take_add]
    simp [h2]
  have hdrop5 : q.data.drop 5 = p.data.drop 4 := by
    rw [hqdata, show (5 : Nat) = (p.data.take 4).length + 1 from by rw [htk4],
      List.drop_append]
    rfl
  have htake2' : ((p.data.drop 2).take 2).length = 2 := by
    simp [hlen]
  have hp : p.data = '5' :: '5' :: ((p.data.drop 2).take 2 ++ p.data.drop 4) := by
    conv_lhs => rw [← List.take_append_drop 2 p.data, h2]
    simp only [List.cons_append, List.nil_append]
    congr 1
    conv_lhs => rw [← List.take_append_drop 2 (p.data.drop 2)]
    rw [List.drop_drop]
  have htt : List.take 2 (List.drop 2 q.data) = (p.data.drop 2).take 2 := by
    rw [hdrop2, List.take_append_of_le_length (by rw [htake2'])]
    simp [List.take_take]
  rw [htt, hdrop5]
  conv_rhs => rw [hp]
  simp [List.append_assoc]

/-- **C3.** For a 12-digit Brazilian local part `p`, the 12-digit address and
its 13-digit counterpart each list both spellings among their variations, and
both normalize to the canonical 13-digit standard address. -/
theorem c3_variations_cover_both_forms (p : String)
    (hdig : p.data.all Char.isDigit = true)
    (h55 : strStartsWith p "55" = true)
    (hlen : p.data.length = 12) :
    getJidVariations (p ++ "@s.whatsapp.net")
        = [p ++ "@s.whatsapp.net",
           String.mk (p.data.take 4 ++ '9' :: p.data.drop 4) ++ "@s.whatsapp.net"]
      ∧ getJidVariations (String.mk (p.data.take 4 ++ '9' :: p.data.drop 4) ++ "@s.whatsapp.net")
        = [String.mk (p.data.take 4 ++ '9' :: p.data.drop 4) ++ "@s.whatsapp.net",
           p ++ "@s.whatsapp.net"]
      ∧ normalizeJid (p ++ "@s.whatsapp.net")
        = String.mk (p.data.take 4 ++ '9' :: p.data.drop 4) ++ "@s.whatsapp.net"
      ∧ normalizeJid (String.mk (p.data.take 4 ++ '9' :: p.data.drop 4) ++ "@s.whatsapp.net")
        = String.mk (p.data.take 4 ++ '9' :: p.data.drop 4) ++ "@s.whatsapp.net" := by
  refine ⟨getJidVariations_twelve p hdig h55 hlen, getJidVariations_thirteen p hdig h55 hlen,
    (c2_normalize_inserts_ninth_digit p hdig h55 hlen).1, ?_⟩
  rw [normalizeJid_std_digits _ (ninth_digit_digits hdig),
    nbn_of_length_ne12 (by rw [ninth_digit_data hlen]; decide)]

/-- Witness for C3 at the concrete number pair `551187654321` /
`5511987654321`. -/
theorem c3_witness :
    ("551187654321".data.all Char.isDigit = true
        ∧ strStartsWith "551187654321" "55" = true
        ∧ "551187654321".data.length = 12)
      ∧ getJidVariations ("551187654321" ++ "@s.whatsapp.net")
        = ["551187654321" ++ "@s.whatsapp.net",
           String.mk ("551187654321".data.take 4 ++ '9' :: "551187654321".data.drop 4)
             ++ "@s.whatsapp.net"] :=
  ⟨⟨by decide, by decide, by decide⟩,
    (c3_variations_cover_both_forms "551187654321" (by decide) (by decide) (by decide)).1⟩

/-! ## C1 — key uniqueness of the deduplicated output -/

/-- C1, counterexample: the claim "the function mapping each output entry to
the pair (normalized representative address, instance name) is injective over
the output list" fails for the three-record input `[c1ChatA, c1ChatB,
c1ChatC]`: the standard-JID promotion inside a key collision caused by a
`'|'`-containing instance name leaves two output entries carrying the same
pair `("10@s.whatsapp.net", "y")`. -/
theorem c1_counterexample :
    ¬ (((deduplicateChats [c1ChatA, c1ChatB, c1ChatC]).chats.map canonicalPairOf).Nodup) := by
  decide

/-! ## C4 — merged unread counts on a key collision (failing input) -/

/-- C4, failing-input evaluation: two raw records with the same canonical key
(`c4Std` standard, `c4Lid` the phone-bearing `@lid` form with the *later*
timestamp) produce **zero** output entries — the `@lid` payload wins the
replace branch, the standard-JID promotion does not fire (the incoming record
is not standard), and the final filter then drops the single surviving entry
because its key saw a standard JID.  The merged chat (unread 3) is lost
entirely; it is not even recorded in `unmatchedLidsByInstance`.  The claim
(exactly one entry, unread `u1 + u2`) states the documented intent. -/
theorem c4_code_bug_eval :
    (deduplicateChats [c4Std, c4Lid]).chats = []
      ∧ (deduplicateChats [c4Std, c4Lid]).unmatchedLidsByInstance = [] := by
  decide

/-! ## C10 — strict timestamp comparison in the key pass -/

/-- C10, counterexample: on an equal-timestamp key collision the claim
"only the unread counts and address set of the later record are folded in"
fails: the earlier record here is a `@lid` form and the later record is
standard, so the merge *also* rewrites the representative `remoteJid` (the
standard-JID promotion).  The single resulting entry differs from the
earlier record with only unread count and address set updated. -/
theorem c10_counterexample :
    getChatTimestamp c10Lid = getChatTimestamp c10Std
      ∧ ((keyPass [c10Lid, c10Std]).map.map (·.2.chat)) ≠
        [{ c10Lid with
            unreadCount := c10Lid.unreadCount + c10Std.unreadCount,
            _allJids := some [c10Lid.remoteJid, c10Std.remoteJid] }] := by
  decide

/-! ## C7 — message merge deduplication -/

theorem mergeStep_idless {seen : List String} {kept : List MsgRecord} {r : MsgRecord}
    (h : recId r = "") : mergeStep (seen, kept) r = (seen, kept ++ [r]) := by
  simp [mergeStep, h]

theorem mergeStep_dup {seen : List String} {kept : List MsgRecord} {r : MsgRecord}
    (h : recId r ≠ "") (hm : recId r ∈ seen) : mergeStep (seen, kept) r = (seen, kept) := by
  simp [mergeStep, h, hm]

theorem mergeStep_new {seen : List String} {kept : List MsgRecord} {r : MsgRecord}
    (h : recId r ≠ "") (hm : recId r ∉ seen) :
    mergeStep (seen, kept) r = (seen ++ [recId r], kept ++ [r]) := by
  simp [mergeStep, h, hm]


theorem mergeStep_fold_spec :
    ∀ (l : List MsgRecord) (seen : List String) (kept : List MsgRecord),
    (∀ j : String, j ≠ "" → (j ∈ seen ↔ ∃ r, r ∈ kept ∧ recId r = j)) →
    (∀ j : String, j ≠ "" → (kept.filter (fun r => recId r == j)).length ≤ 1) →
    (∀ i : String, i ≠ "" →
        (l.foldl mergeStep (seen, kept)).2.filter (fun r => recId r == i)
          = (kept.filter (fun r => recId r == i) ++ l.filter (fun r => recId r == i)).take 1)
      ∧ (l.foldl mergeStep (seen, kept)).2.filter (fun r => recId r == "")
          = kept.filter (fun r => recId r == "") ++ l.filter (fun r => recId r == "") := by
  intro l
  induction l with
  | nil =>
    intro seen kept h1 h2
    constructor
    · intro i hi
      simp only [List.foldl_nil, List.filter_nil, List.append_nil]
      exact (List.take_of_length_le (h2 i hi)).symm
    · simp
  | cons r rest ih =>
    intro seen kept h1 h2
    rw [List.foldl_cons]
    by_cases hkid : recId r = ""
    · -- id-less record: always kept
      rw [mergeStep_idless hkid]
      have h1' : ∀ j : String, j ≠ "" →
          (j ∈ seen ↔ ∃ x, x ∈ kept ++ [r] ∧ recId x = j) := by
        intro j hj
        rw [h1 j hj]
        constructor
        · rintro ⟨x, hx, hxr⟩; exact ⟨x, List.mem_append_left _ hx, hxr⟩
        · rintro ⟨x, hx, hxr⟩
          rcases List.mem_append.mp hx with hx | hx
          · exact ⟨x, hx, hxr⟩
          · rcases List.mem_singleton.mp hx with rfl
            exact absurd (hxr.symm.trans hkid) hj
      have h2' : ∀ j : String, j ≠ "" →
          ((kept ++ [r]).filter (fun x => recId x == j)).length ≤ 1 := by
        intro j hj
        rw [List.filter_append]
        have hr : [r].filter (fun x => recId x == j) = [] := by
          simp [hkid, Ne.symm hj]
        rw [hr, List.append_nil]
        exact h2 j hj
      obtain ⟨iha, ihb⟩ := ih seen (kept ++ [r]) h1' h2'
      constructor
      · intro i hi
        rw [iha i hi, List.filter_append]
        have hr : [r].filter (fun x => recId x == i) = [] := by
          simp [hkid, Ne.symm hi]
        have hrc : (r :: rest).filter (fun x => recId x == i)
            = rest.filter (fun x => recId x == i) :=
          List.filter_cons_of_neg (by simp [hkid, Ne.symm hi])
        rw [hr, hrc, List.append_nil]
      · rw [ihb, List.filter_append]
        have hr : [r].filter (fun x => recId x == "") = [r] := by
          simp [hkid]
        have hrc : (r :: rest).filter (fun x => recId x == "")
            = r :: rest.filter (fun x => recId x == "") :=
          List.filter_cons_of_pos (by simp [hkid])
        rw [hr, hrc, List.append_assoc]
        rfl
    · by_cases hseen : recId r ∈ seen
      · -- duplicate id: dropped
        rw [mergeStep_dup hkid hseen]
        obtain ⟨iha, ihb⟩ := ih seen kept h1 h2
        constructor
        · intro i hi
          rw [iha i hi]
          by_cases hik : i = recId r
          · -- the duplicate's id: the kept list already holds one such record
            obtain ⟨x, hxk, hxr⟩ := (h1 i hi).mp (hik ▸ hseen)
            have hxf : x ∈ kept.filter (fun y => recId y == i) := by
              rw [List.mem_filter]
              exact ⟨hxk, by simp [hxr]⟩
            obtain ⟨a, t, hft⟩ : ∃ a t, kept.filter (fun y => recId y == i) = a :: t := by
              cases hf : kept.filter (fun y => recId y == i) with
              | nil => rw [hf] at hxf; cases hxf
              | cons a t => exact ⟨a, t, rfl⟩
            have hfc : (r :: rest).filter (fun y => recId y == i)
                = r :: rest.filter (fun y => recId y == i) :=
              List.filter_cons_of_pos (by simp [hik])
            rw [hfc, hft]
            rfl
          · have hfc : (r :: rest).filter (fun y => recId y == i)
                = rest.filter (fun y => recId y == i) :=
              List.filter_cons_of_neg (by simp; exact fun hh => hik hh.symm)
            rw [hfc]
        · rw [ihb]
          have hfc : (r :: rest).filter (fun y => recId y == "")
              = rest.filter (fun y => recId y == "") :=
            List.filter_cons_of_neg (by simp [hkid])
          rw [hfc]
      · -- new id: kept and recorded
        rw [mergeStep_new hkid hseen]
        have hkf : kept.filter (fun y => recId y == recId r) = [] := by
          rw [List.filter_eq_nil_iff]
          intro x hxk hx
          exact hseen ((h1 _ hkid).mpr ⟨x, hxk, by simpa using hx⟩)
        have h1' : ∀ j : String, j ≠ "" →
            (j ∈ seen ++ [recId r] ↔ ∃ x, x ∈ kept ++ [r] ∧ recId x = j) := by
          intro j hj
          rw [List.mem_append]
          constructor
          · intro hor
            rcases hor with hs | hs
            · obtain ⟨x, hxk, hxr⟩ := (h1 j hj).mp hs
              exact ⟨x, List.mem_append_left _ hxk, hxr⟩
            · rcases List.mem_singleton.mp hs with rfl
              exact ⟨r, List.mem_append_right _ (List.mem_singleton_self r), rfl⟩
          · rintro ⟨x, hxm, hxr⟩
            rcases List.mem_append.mp hxm with hx | hx
            · exact Or.inl ((h1 j hj).mpr ⟨x, hx, hxr⟩)
            · rcases List.mem_singleton.mp hx with rfl
              exact Or.inr (by rw [← hxr]; exact List.mem_singleton_self _)
        have h2' : ∀ j : String, j ≠ "" →
            ((kept ++ [r]).filter (fun y => recId y == j)).length ≤ 1 := by
          intro j hj
          rw [List.filter_append]
          by_cases hjr : j = recId r
          · rw [hjr, hkf, List.nil_append]
            simp
          · have hr : [r].filter (fun y => recId y == j) = [] := by
              simp; exact fun hh => hjr hh.symm
            rw [hr, List.append_nil]
            exact h2 j hj
        obtain ⟨iha, ihb⟩ := ih (seen ++ [recId r]) (kept ++ [r]) h1' h2'
        constructor
        · intro i hi
          rw [iha i hi, List.filter_append]
          by_cases hik : i = recId r
          · rw [hik, hkf, List.nil_append]
            have hrf : [r].filter (fun y => recId y == recId r) = [r] := by simp
            have hfc : (r :: rest).filter (fun y => recId y == recId r)
                = r :: rest.filter (fun y => recId y == recId r) :=
              List.filter_cons_of_pos (by simp)
            rw [hrf, hfc]
            rfl
          · have hrf : [r].filter (fun y => recId y == i) = [] := by
              simp; exact fun hh => hik hh.symm
            have hfc : (r :: rest).filter (fun y => recId y == i)
                = rest.filter (fun y => recId y == i) :=
              List.filter_cons_of_neg (by simp; exact fun hh => hik hh.symm)
            rw [hrf, hfc, List.append_nil]
        · rw [ihb, List.filter_append]
          have hrf : [r].filter (fun y => recId y == "") = [] := by
            simp [hkid]
          have hfc : (r :: rest).filter (fun y => recId y == "")
              = rest.filter (fun y => recId y == "") :=
            List.filter_cons_of_neg (by simp [hkid])
          rw [hrf, hfc, List.append_nil]


theorem mergeMessageArrays_eq_flatten (arrays : List (List MsgRecord)) :
    mergeMessageArrays arrays = ((arrays.flatMap id).foldl mergeStep ([], [])).2 := by
  rw [mergeMessageArrays]
  congr 1
  generalize ([], []) = init
  induction arrays generalizing init with
  | nil => rfl
  | cons l ls ih =>
    rw [List.flatMap_cons, List.foldl_append, List.foldl_cons]
    exact ih _


/-- **C7.** Merging the per-JID record arrays: an id occurring in more than
one fetched list yields exactly one record in the output (the first
occurrence in fetch order), and records without an extractable id are all
kept, in order, never deduplicated away. -/
theorem c7_merge_dedup_by_id (arrays : List (List MsgRecord)) (i : String)
    (hi : i ≠ "")
    (hocc : 2 ≤ arrays.countP (fun l => l.any (fun r => recId r == i))) :
    (mergeMessageArrays arrays).filter (fun r => recId r == i)
        = ((arrays.flatMap id).filter (fun r => recId r == i)).take 1
      ∧ ((mergeMessageArrays arrays).filter (fun r => recId r == i)).length = 1
      ∧ (mergeMessageArrays arrays).filter (fun r => recId r == "")
        = (arrays.flatMap id).filter (fun r => recId r == "") := by
  have hspec := mergeStep_fold_spec (arrays.flatMap id) [] []
    (by intro j hj; simp) (by intro j hj; simp)
  rw [mergeMessageArrays_eq_flatten]
  obtain ⟨ha, hb⟩ := hspec
  have hfa := ha i hi
  rw [List.filter_nil, List.nil_append] at hfa hb
  refine ⟨hfa, ?_, hb⟩
  -- the id occurs somewhere, so the filtered flatten is nonempty
  obtain ⟨l, hl, hany⟩ := List.countP_pos_iff.mp (lt_of_lt_of_le (by norm_num) hocc)
  obtain ⟨r, hr, hri⟩ := List.any_eq_true.mp hany
  have hmem : r ∈ (arrays.flatMap id).filter (fun x => recId x == i) := by
    rw [List.mem_filter]
    exact ⟨by simp; exact ⟨l, hl, hr⟩, hri⟩
  rw [hfa]
  cases hf : (arrays.flatMap id).filter (fun x => recId x == i) with
  | nil => rw [hf] at hmem; cases hmem
  | cons a t => rfl

/-- Concrete record family for the C7 witness: id `"m"` occurs in two of the
three lists, and one record has no id. -/
theorem c7_witness :
    (("m" : String) ≠ ""
        ∧ 2 ≤ ([[({ keyId := "m", payload := 1 } : MsgRecord)],
                [({ keyId := "m", payload := 2 } : MsgRecord)],
                [({ payload := 3 } : MsgRecord)]].countP
            (fun l => l.any (fun r => recId r == "m"))))
      ∧ ((mergeMessageArrays
            [[({ keyId := "m", payload := 1 } : MsgRecord)],
             [({ keyId := "m", payload := 2 } : MsgRecord)],
             [({ payload := 3 } : MsgRecord)]]).filter
          (fun r => recId r == "m")).length = 1 :=
  ⟨⟨by decide, by decide⟩,
    (c7_merge_dedup_by_id _ "m" (by decide) (by decide)).2.1⟩



theorem updateFirstWhere_map_erase (pred : Chat → Bool) (f : Chat → Chat)
    (hf : ∀ c, eraseAllJids (f c) = eraseAllJids c) :
    ∀ l : List Chat, (updateFirstWhere pred f l).map eraseAllJids = l.map eraseAllJids := by
  intro l
  induction l with
  | nil => rfl
  | cons c rest ih =>
    rw [updateFirstWhere]
    by_cases h : pred c = true
    · rw [if_pos h, List.map_cons, List.map_cons, hf]
    · rw [if_neg h, List.map_cons, List.map_cons, ih]

theorem mergeResolvedLid_map_erase (instanceName lidJid phoneJid : String)
    (chats : List Chat) :
    (mergeResolvedLid instanceName lidJid phoneJid chats).map eraseAllJids
      = chats.map eraseAllJids := by
  apply updateFirstWhere_map_erase
  intro c
  rfl

theorem resolveInstanceLids_map_erase (cenv : String → Option (List Contact))
    (insts : List InstanceRef) (bucket : String × List String) :
    ∀ chats : List Chat,
      (resolveInstanceLids cenv insts chats bucket).map eraseAllJids
        = chats.map eraseAllJids := by
  intro chats
  cases hfind : insts.find? (fun i => i.displayName == bucket.1) with
  | none => simp only [resolveInstanceLids, hfind]
  | some inst =>
    cases hcenv : cenv inst.fullName with
    | none => simp only [resolveInstanceLids, hfind, hcenv]
    | some contacts =>
      simp only [resolveInstanceLids, hfind, hcenv]
      generalize bucket.2 = jids
      induction jids generalizing chats with
      | nil => rfl
      | cons j js ih =>
        rw [List.foldl_cons]
        cases lookupA j (buildLidToPhone contacts) with
        | none => exact ih chats
        | some phoneJid =>
          simp only
          rw [ih, mergeResolvedLid_map_erase]

/-- **C9.** The external contact-lookup resolution pass changes at most the
`_allJids` address set of each chat: for every lookup outcome (failure,
missing mapping, match, or no match) the returned list has the same length and
order, and every other field of every chat is unchanged. -/
theorem c9_resolve_frame (cenv : String → Option (List Contact)) (chats : List Chat)
    (unmatched : List (String × List String)) (insts : List InstanceRef) :
    (resolveUnmatchedLids cenv chats unmatched insts).map eraseAllJids
      = chats.map eraseAllJids := by
  rw [resolveUnmatchedLids]
  induction unmatched generalizing chats with
  | nil => rfl
  | cons b bs ih =>
    rw [List.foldl_cons, ih, resolveInstanceLids_map_erase]

/-! ## Key-pass step lemmas and the amended C10 -/

theorem getChatTimestamp_update_allJids (c : Chat) (x : Option (List String)) :
    getChatTimestamp { c with _allJids := x } = getChatTimestamp c := rfl

theorem getChatTimestamp_update_unread (c : Chat) (n : Nat) :
    getChatTimestamp { c with unreadCount := n } = getChatTimestamp c := rfl

theorem keyPassStep_skip {st : KeyPassState} {chat : Chat} (h : rawJidOf chat = "") :
    keyPassStep st chat = st := by
  rw [keyPassStep, if_pos h]

theorem keyPassStep_insert {st : KeyPassState} {chat : Chat} (h : rawJidOf chat ≠ "")
    (hl : lookupA (chatKeyOf chat) st.map = none) :
    keyPassStep st chat =
      ⟨setA (chatKeyOf chat)
          ⟨{ chat with _allJids := some [rawJidOf chat] }, [rawJidOf chat]⟩ st.map,
        if isStandardUserJid (rawJidOf chat) then st.hasStandardJid ++ [chatKeyOf chat]
        else st.hasStandardJid⟩ := by
  rw [keyPassStep, if_neg h]
  dsimp only
  rw [show (normalizeJid (rawJidOf chat) ++ "|" ++ chat.instanceName) = chatKeyOf chat from rfl,
    hl]

theorem keyPassStep_merge {st : KeyPassState} {chat : Chat} {existing : Entry}
    (h : rawJidOf chat ≠ "")
    (hl : lookupA (chatKeyOf chat) st.map = some existing) :
    keyPassStep st chat =
      (let allJids1 := existing.allJids ++ [rawJidOf chat]
       let chat1 := { existing.chat with _allJids := some allJids1 }
       let chat2 :=
         if getChatTimestamp chat1 < getChatTimestamp chat then
           { chat with _allJids := some allJids1,
                       unreadCount := chat1.unreadCount + chat.unreadCount }
         else { chat1 with unreadCount := chat1.unreadCount + chat.unreadCount }
       let chat3 :=
         if isStandardUserJid (rawJidOf chat) && !(isStandardUserJid chat2.remoteJid) then
           { chat2 with remoteJid := rawJidOf chat }
         else chat2
       (⟨setA (chatKeyOf chat) ⟨chat3, allJids1⟩ st.map,
         if isStandardUserJid (rawJidOf chat) then st.hasStandardJid ++ [chatKeyOf chat]
         else st.hasStandardJid⟩ : KeyPassState)) := by
  rw [keyPassStep, if_neg h]
  dsimp only
  rw [show (normalizeJid (rawJidOf chat) ++ "|" ++ chat.instanceName) = chatKeyOf chat from rfl,
    hl]


/-- **C10 (amended).** On any key-pass collision (a raw record `b` arriving
while `ex` is the stored entry for its canonical key), the unread counts sum
and the raw address is appended in every case; the stored record stays the
representative payload unless the arriving record's extracted timestamp is
strictly greater (equal timestamps keep the stored payload), in which case
the arriving record's payload wins; and in both cases the representative
display address is additionally promoted to the arriving record's raw address
exactly when that is standard-kind and the current representative's is not. -/
theorem c10_amended_strict_merge (st : KeyPassState) (b : Chat) (ex : Entry)
    (hb : rawJidOf b ≠ "")
    (hl : lookupA (chatKeyOf b) st.map = some ex) :
    ∃ c : Chat,
      (keyPassStep st b).map
          = setA (chatKeyOf b) ⟨c, ex.allJids ++ [rawJidOf b]⟩ st.map
        ∧ (getChatTimestamp b ≤ getChatTimestamp ex.chat →
            c.name = ex.chat.name ∧ c.pushName = ex.chat.pushName ∧ c.id = ex.chat.id
              ∧ c.instanceName = ex.chat.instanceName ∧ c.lastMessage = ex.chat.lastMessage
              ∧ c.updatedAtMs = ex.chat.updatedAtMs
              ∧ c.lastMsgTimestamp = ex.chat.lastMsgTimestamp
              ∧ c.conversationTimestamp = ex.chat.conversationTimestamp
              ∧ c.payload = ex.chat.payload
              ∧ c.unreadCount = ex.chat.unreadCount + b.unreadCount
              ∧ c._allJids = some (ex.allJids ++ [rawJidOf b])
              ∧ c.remoteJid = (if isStandardUserJid (rawJidOf b)
                  && !(isStandardUserJid ex.chat.remoteJid) then rawJidOf b
                  else ex.chat.remoteJid))
        ∧ (getChatTimestamp ex.chat < getChatTimestamp b →
            c.name = b.name ∧ c.pushName = b.pushName ∧ c.id = b.id
              ∧ c.instanceName = b.instanceName ∧ c.lastMessage = b.lastMessage
              ∧ c.updatedAtMs = b.updatedAtMs ∧ c.lastMsgTimestamp = b.lastMsgTimestamp
              ∧ c.conversationTimestamp = b.conversationTimestamp ∧ c.payload = b.payload
              ∧ c.unreadCount = ex.chat.unreadCount + b.unreadCount
              ∧ c._allJids = some (ex.allJids ++ [rawJidOf b])
              ∧ c.remoteJid = (if isStandardUserJid (rawJidOf b)
                  && !(isStandardUserJid b.remoteJid) then rawJidOf b else b.remoteJid)) := by
  rw [keyPassStep_merge hb hl]
  dsimp only
  rw [show getChatTimestamp { ex.chat with _allJids := some (ex.allJids ++ [rawJidOf b]) }
      = getChatTimestamp ex.chat from rfl]
  by_cases hts : getChatTimestamp ex.chat < getChatTimestamp b
  · rw [if_pos hts]
    by_cases hp : (isStandardUserJid (rawJidOf b) && !(isStandardUserJid b.remoteJid)) = true
    · rw [if_pos (by exact hp)]
      refine ⟨_, rfl, fun h => absurd hts (not_lt.mpr h), fun _ => ?_⟩
      refine ⟨rfl, rfl, rfl, rfl, rfl, rfl, rfl, rfl, rfl, rfl, rfl, ?_⟩
      rw [if_pos hp]
    · rw [if_neg (by exact hp)]
      refine ⟨_, rfl, fun h => absurd hts (not_lt.mpr h), fun _ => ?_⟩
      refine ⟨rfl, rfl, rfl, rfl, rfl, rfl, rfl, rfl, rfl, rfl, rfl, ?_⟩
      rw [if_neg hp]
  · rw [if_neg hts]
    by_cases hp : (isStandardUserJid (rawJidOf b)
        && !(isStandardUserJid ex.chat.remoteJid)) = true
    · rw [if_pos (by exact hp)]
      refine ⟨_, rfl, fun _ => ?_, fun h => absurd h hts⟩
      refine ⟨rfl, rfl, rfl, rfl, rfl, rfl, rfl, rfl, rfl, rfl, rfl, ?_⟩
      rw [if_pos hp]
    · rw [if_neg (by exact hp)]
      refine ⟨_, rfl, fun _ => ?_, fun h => absurd h hts⟩
      refine ⟨rfl, rfl, rfl, rfl, rfl, rfl, rfl, rfl, rfl, rfl, rfl, ?_⟩
      rw [if_neg hp]

/-- Witness for the amended C10 at a concrete equal-timestamp collision
(`c10Lid` stored, `c10Std` arriving). -/
theorem c10_amended_witness :
    rawJidOf c10Std ≠ ""
      ∧ lookupA (chatKeyOf c10Std) (keyPass [c10Lid]).map
          = some ⟨{ c10Lid with _allJids := some [rawJidOf c10Lid] }, [rawJidOf c10Lid]⟩
      ∧ ∃ c : Chat,
          (keyPassStep (keyPass [c10Lid]) c10Std).map
              = setA (chatKeyOf c10Std) ⟨c, [rawJidOf c10Lid] ++ [rawJidOf c10Std]⟩
                  (keyPass [c10Lid]).map
            ∧ c.unreadCount = c10Lid.unreadCount + c10Std.unreadCount := by
  refine ⟨by decide, by decide, ?_⟩
  obtain ⟨c, hm, h1, _⟩ := c10_amended_strict_merge (keyPass [c10Lid]) c10Std
    ⟨{ c10Lid with _allJids := some [rawJidOf c10Lid] }, [rawJidOf c10Lid]⟩
    (by decide) (by decide)
  obtain ⟨_, _, _, _, _, _, _, _, _, hunread, _, _⟩ := h1 (by decide)
  exact ⟨c, hm, hunread⟩

/-! ## C5 — standard/linked name-pass merge -/

theorem endsWith_append (x y : String) : strEndsWith (x ++ y) y = true := by
  rw [strEndsWith, List.isSuffixOf_iff_suffix, String.data_append]
  exact List.suffix_append x.data y.data

theorem getLast?_of_endsWith {r s : String} (h : strEndsWith r s = true) (hs : s.data ≠ []) :
    r.data.getLast? = s.data.getLast? := by
  obtain ⟨t, ht⟩ := List.isSuffixOf_iff_suffix.mp h
  rw [← ht, List.getLast?_append_of_ne_nil _ hs]

theorem ne_of_lid_std {a b : String} (ha : strEndsWith a "@lid" = true)
    (hb : strEndsWith b "@s.whatsapp.net" = true) : a ≠ b := by
  intro hab
  have h1 := getLast?_of_endsWith ha (by decide)
  have h2 := getLast?_of_endsWith hb (by decide)
  rw [hab] at h1
  rw [h1] at h2
  exact absurd h2 (by decide)

theorem std_not_lid {r : String} (h : isStandardUserJid r = true) : isLidJid r = false := by
  rw [Bool.eq_false_iff]
  intro hl
  exact ne_of_lid_std hl h rfl

theorem lid_not_std {r : String} (h : isLidJid r = true) : isStandardUserJid r = false := by
  rw [Bool.eq_false_iff]
  intro hs
  exact ne_of_lid_std h hs rfl

theorem ne_empty_of_endsWith {r s : String} (h : strEndsWith r s = true) (hs : s.data ≠ []) :
    r ≠ "" := by
  apply string_ne_empty_of_data
  obtain ⟨t, ht⟩ := List.isSuffixOf_iff_suffix.mp h
  rw [← ht]
  simp [hs]

theorem normalizeJid_endsWith_std {r : String} (h : strEndsWith r "@s.whatsapp.net" = true) :
    strEndsWith (normalizeJid r) "@s.whatsapp.net" = true := by
  rw [normalizeJid]
  split
  · exact h
  · cases hsp : splitAtChar '@' r.data with
    | none => simp only [hsp]; exact h
    | some p =>
      obtain ⟨rawLocal, domainL⟩ := p
      simp only [hsp]
      split
      · split
        · exact endsWith_append _ _
        · exact h
      · split
        · next heq => rw [heq]; exact endsWith_append _ _
        · exact h

theorem key_cancel {n₁ n₂ i : String} (h : n₁ ++ "|" ++ i = n₂ ++ "|" ++ i) : n₁ = n₂ := by
  apply string_eq_of_data
  have hd : (n₁.data ++ "|".data) ++ i.data = (n₂.data ++ "|".data) ++ i.data := by
    have := congrArg String.data h
    rwa [String.data_append, String.data_append, String.data_append, String.data_append] at this
  have := List.append_cancel_right hd
  exact List.append_cancel_right this

theorem key_ne_of_lid_std {l s : Chat} (hinst : l.instanceName = s.instanceName)
    (hlid : strEndsWith (normalizeJid (rawJidOf l)) "@lid" = true)
    (hstd : strEndsWith (normalizeJid (rawJidOf s)) "@s.whatsapp.net" = true) :
    chatKeyOf l ≠ chatKeyOf s := by
  intro h
  rw [chatKeyOf, chatKeyOf, hinst] at h
  exact ne_of_lid_std hlid hstd (key_cancel h)


theorem c5_keypass_sl (s l : Chat)
    (hs : isStandardUserJid (rawJidOf s) = true)
    (hlid : isLidJid (rawJidOf l) = true)
    (hop : normalizeJid (rawJidOf l) = rawJidOf l)
    (hinst : l.instanceName = s.instanceName) :
    keyPass [s, l] =
      ⟨[(chatKeyOf s, ⟨{ s with _allJids := some [rawJidOf s] }, [rawJidOf s]⟩),
        (chatKeyOf l, ⟨{ l with _allJids := some [rawJidOf l] }, [rawJidOf l]⟩)],
       [chatKeyOf s]⟩ := by
  have f1 : rawJidOf s ≠ "" := ne_empty_of_endsWith hs (by decide)
  have f2 : rawJidOf l ≠ "" := ne_empty_of_endsWith hlid (by decide)
  have f3 : strEndsWith (normalizeJid (rawJidOf s)) "@s.whatsapp.net" = true :=
    normalizeJid_endsWith_std hs
  have f4 : strEndsWith (normalizeJid (rawJidOf l)) "@lid" = true := by
    rw [hop]; exact hlid
  have f5 : chatKeyOf l ≠ chatKeyOf s := key_ne_of_lid_std hinst f4 f3
  have f7 : isStandardUserJid (rawJidOf l) = false := lid_not_std hlid
  have hst1 : keyPassStep ⟨[], []⟩ s =
      ⟨[(chatKeyOf s, ⟨{ s with _allJids := some [rawJidOf s] }, [rawJidOf s]⟩)],
       [chatKeyOf s]⟩ := by
    rw [keyPassStep_insert f1
      (show lookupA (chatKeyOf s) (⟨[], []⟩ : KeyPassState).map = none from rfl)]
    simp [setA, hs]
  have hlook2 : lookupA (chatKeyOf l)
      [(chatKeyOf s, (⟨{ s with _allJids := some [rawJidOf s] }, [rawJidOf s]⟩ : Entry))]
      = none := by
    rw [lookupA, if_neg (fun hh => f5 hh.symm)]
    rfl
  have h1 : keyPass [s, l] = keyPassStep (keyPassStep ⟨[], []⟩ s) l := rfl
  rw [h1, hst1, keyPassStep_insert f2 hlook2]
  rw [setA, if_neg (fun hh => f5 hh.symm), f7]
  rfl


theorem c5_keypass_ls (s l : Chat)
    (hs : isStandardUserJid (rawJidOf s) = true)
    (hlid : isLidJid (rawJidOf l) = true)
    (hop : normalizeJid (rawJidOf l) = rawJidOf l)
    (hinst : l.instanceName = s.instanceName) :
    keyPass [l, s] =
      ⟨[(chatKeyOf l, ⟨{ l with _allJids := some [rawJidOf l] }, [rawJidOf l]⟩),
        (chatKeyOf s, ⟨{ s with _allJids := some [rawJidOf s] }, [rawJidOf s]⟩)],
       [chatKeyOf s]⟩ := by
  have f1 : rawJidOf s ≠ "" := ne_empty_of_endsWith hs (by decide)
  have f2 : rawJidOf l ≠ "" := ne_empty_of_endsWith hlid (by decide)
  have f3 : strEndsWith (normalizeJid (rawJidOf s)) "@s.whatsapp.net" = true :=
    normalizeJid_endsWith_std hs
  have f4 : strEndsWith (normalizeJid (rawJidOf l)) "@lid" = true := by
    rw [hop]; exact hlid
  have f5 : chatKeyOf l ≠ chatKeyOf s := key_ne_of_lid_std hinst f4 f3
  have f7 : isStandardUserJid (rawJidOf l) = false := lid_not_std hlid
  have hst1 : keyPassStep ⟨[], []⟩ l =
      ⟨[(chatKeyOf l, ⟨{ l with _allJids := some [rawJidOf l] }, [rawJidOf l]⟩)],
       []⟩ := by
    rw [keyPassStep_insert f2
      (show lookupA (chatKeyOf l) (⟨[], []⟩ : KeyPassState).map = none from rfl)]
    simp [setA, f7]
  have hlook2 : lookupA (chatKeyOf s)
      [(chatKeyOf l, (⟨{ l with _allJids := some [rawJidOf l] }, [rawJidOf l]⟩ : Entry))]
      = none := by
    rw [lookupA, if_neg f5]
    rfl
  have h1 : keyPass [l, s] = keyPassStep (keyPassStep ⟨[], []⟩ l) s := rfl
  rw [h1, hst1, keyPassStep_insert f1 hlook2]
  rw [setA, if_neg f5, hs]
  rfl


theorem rawJidOf_set_allJids (c : Chat) (x : Option (List String)) :
    rawJidOf { c with _allJids := x } = rawJidOf c := rfl

theorem mergeLid_two (s l : Chat) (f8 : rawJidOf s ≠ rawJidOf l) :
    ∃ c : Chat,
      mergeLidIntoStd ⟨{ l with _allJids := some [rawJidOf l] }, [rawJidOf l]⟩
          ⟨{ s with _allJids := some [rawJidOf s] }, [rawJidOf s]⟩
        = ⟨c, [rawJidOf s, rawJidOf l]⟩
      ∧ c.remoteJid = s.remoteJid ∧ c.id = s.id ∧ c.instanceName = s.instanceName
      ∧ c.unreadCount = s.unreadCount + l.unreadCount := by
  rw [mergeLidIntoStd]
  dsimp only
  have hnew : List.foldl (fun acc j => if acc.contains j then acc else acc ++ [j])
      [rawJidOf s] [rawJidOf l] = [rawJidOf s, rawJidOf l] := by
    have hcon : ¬ ([rawJidOf s].contains (rawJidOf l) = true) := by
      simp only [List.contains_cons, List.contains_nil, Bool.or_false, beq_iff_eq]
      exact fun h => f8 h.symm
    rw [List.foldl_cons, List.foldl_nil, if_neg hcon]
    rfl
  rw [hnew]
  split
  · exact ⟨_, rfl, rfl, rfl, rfl, rfl⟩
  · exact ⟨_, rfl, rfl, rfl, rfl, rfl⟩


theorem c5_np_sl (s l : Chat)
    (hs : isStandardUserJid (rawJidOf s) = true)
    (hlid : isLidJid (rawJidOf l) = true)
    (hop : normalizeJid (rawJidOf l) = rawJidOf l)
    (hinst : l.instanceName = s.instanceName)
    (hname : (normName l.name ≠ "" ∧ normName l.name = normName s.name)
      ∨ (normName l.pushName ≠ "" ∧ normName l.pushName = normName s.pushName)) :
    ∃ c : Chat,
      deduplicateChats [s, l] = ⟨[c], []⟩
        ∧ c.remoteJid = s.remoteJid ∧ c.id = s.id ∧ c.instanceName = s.instanceName
        ∧ c.unreadCount = s.unreadCount + l.unreadCount := by
  have f3 : strEndsWith (normalizeJid (rawJidOf s)) "@s.whatsapp.net" = true :=
    normalizeJid_endsWith_std hs
  have f4 : strEndsWith (normalizeJid (rawJidOf l)) "@lid" = true := by
    rw [hop]; exact hlid
  have f5 : chatKeyOf l ≠ chatKeyOf s := key_ne_of_lid_std hinst f4 f3
  have f6 : isLidJid (rawJidOf s) = false := std_not_lid hs
  have f8 : rawJidOf s ≠ rawJidOf l := fun h => ne_of_lid_std hlid hs h.symm
  obtain ⟨c, hcdef, hcr, hci, hcin, hcu⟩ := mergeLid_two s l f8
  have hrawc : rawJidOf c = rawJidOf s := by
    simp only [rawJidOf, hcr, hci]
  have hlidc : isLidJid (rawJidOf c) = false := by rw [hrawc]; exact f6
  refine ⟨c, ?_, hcr, hci, hcin, hcu⟩
  set es : Entry := ⟨{ s with _allJids := some [rawJidOf s] }, [rawJidOf s]⟩ with hes
  set el : Entry := ⟨{ l with _allJids := some [rawJidOf l] }, [rawJidOf l]⟩ with hel
  set ks := chatKeyOf s with hks
  set kl := chatKeyOf l with hkl
  have hkp := c5_keypass_sl s l hs hlid hop hinst
  have hunmk : unmatchedLidKeysOf ⟨[(ks, es), (kl, el)], [ks]⟩ = [kl] := by
    rw [unmatchedLidKeysOf]
    dsimp only
    rw [List.filter_cons, List.filter_cons, List.filter_nil]
    have hc1 : (isLidJid (rawJidOf es.chat) && !([ks].contains ks)) = false := by
      have : rawJidOf es.chat = rawJidOf s := rfl
      rw [this, f6, Bool.false_and]
    have hc2 : (isLidJid (rawJidOf el.chat) && !([ks].contains kl)) = true := by
      have h1 : rawJidOf el.chat = rawJidOf l := rfl
      have h2 : ([ks].contains kl) = false := by
        simp only [List.contains_cons, List.contains_nil, Bool.or_false, beq_iff_eq]
        exact decide_eq_false f5
      rw [h1, hlid, h2]
      rfl
    rw [hc1, hc2]
    rfl
  have hcands : standardKeysFor ⟨[(ks, es), (kl, el)], [ks]⟩ l.instanceName = [ks] := by
    rw [standardKeysFor]
    dsimp only
    rw [List.filter_cons, List.filter_cons, List.filter_nil]
    have hc1 : (!(isLidJid (rawJidOf es.chat)) && (es.chat.instanceName == l.instanceName))
        = true := by
      have h1 : rawJidOf es.chat = rawJidOf s := rfl
      have h2 : es.chat.instanceName = s.instanceName := rfl
      rw [h1, f6, h2]
      simp [hinst]
    have hc2 : (!(isLidJid (rawJidOf el.chat)) && (el.chat.instanceName == l.instanceName))
        = false := by
      have h1 : rawJidOf el.chat = rawJidOf l := rfl
      rw [h1, hlid]
      rfl
    rw [hc1, hc2]
    rfl
  have hlkl : lookupA kl [(ks, es), (kl, el)] = some el := by
    rw [lookupA, if_neg (fun hh => f5 hh.symm), lookupA, if_pos rfl]
  have hlks : lookupA ks [(ks, es), (kl, el)] = some es := by
    rw [lookupA, if_pos rfl]
  have hmatch : nameMatches el.chat es.chat = true := by
    rw [nameMatches]
    dsimp only
    rw [Bool.or_eq_true]
    rcases hname with ⟨hne, heq⟩ | ⟨hne, heq⟩
    · left
      rw [← heq]
      simp [hne]
    · right
      rw [← heq]
      simp [hne]
  have hgate : (normName el.chat.name != "" || normName el.chat.pushName != "") = true := by
    have h1 : el.chat.name = l.name := rfl
    have h2 : el.chat.pushName = l.pushName := rfl
    rw [h1, h2]
    rcases hname with ⟨hne, _⟩ | ⟨hne, _⟩
    · simp [hne]
    · simp [hne]
  have htry : tryMatchCandidates [(ks, es), (kl, el)] kl el [ks]
      = some [(ks, ⟨c, [rawJidOf s, rawJidOf l]⟩)] := by
    rw [tryMatchCandidates, hlks]
    dsimp only
    rw [if_pos hmatch, hcdef]
    rw [setA, if_pos rfl, delA, if_neg (fun hh => f5 hh.symm), delA, if_pos rfl]
  have hstep : namePassStep (standardKeysFor ⟨[(ks, es), (kl, el)], [ks]⟩)
      ⟨[(ks, es), (kl, el)], []⟩ kl
      = ⟨[(ks, ⟨c, [rawJidOf s, rawJidOf l]⟩)], []⟩ := by
    rw [namePassStep]
    dsimp only
    rw [hlkl]
    dsimp only
    rw [if_pos hgate]
    have : el.chat.instanceName = l.instanceName := rfl
    rw [this, hcands, htry]
  have hfinal : deduplicateChats [s, l] = ⟨[c], []⟩ := by
    rw [deduplicateChats, hkp]
    dsimp only
    rw [hunmk, List.foldl_cons, List.foldl_nil, hstep]
    dsimp only
    rw [List.filter_cons, List.filter_nil]
    have hcnd : (!(isLidJid (rawJidOf c) && ([ks].contains ks))) = true := by
      rw [hlidc]
      rfl
    rw [hcnd]
    rfl
  exact hfinal


theorem c5_np_ls (s l : Chat)
    (hs : isStandardUserJid (rawJidOf s) = true)
    (hlid : isLidJid (rawJidOf l) = true)
    (hop : normalizeJid (rawJidOf l) = rawJidOf l)
    (hinst : l.instanceName = s.instanceName)
    (hname : (normName l.name ≠ "" ∧ normName l.name = normName s.name)
      ∨ (normName l.pushName ≠ "" ∧ normName l.pushName = normName s.pushName)) :
    ∃ c : Chat,
      deduplicateChats [l, s] = ⟨[c], []⟩
        ∧ c.remoteJid = s.remoteJid ∧ c.id = s.id ∧ c.instanceName = s.instanceName
        ∧ c.unreadCount = s.unreadCount + l.unreadCount := by
  have f3 : strEndsWith (normalizeJid (rawJidOf s)) "@s.whatsapp.net" = true :=
    normalizeJid_endsWith_std hs
  have f4 : strEndsWith (normalizeJid (rawJidOf l)) "@lid" = true := by
    rw [hop]; exact hlid
  have f5 : chatKeyOf l ≠ chatKeyOf s := key_ne_of_lid_std hinst f4 f3
  have f6 : isLidJid (rawJidOf s) = false := std_not_lid hs
  have f8 : rawJidOf s ≠ rawJidOf l := fun h => ne_of_lid_std hlid hs h.symm
  obtain ⟨c, hcdef, hcr, hci, hcin, hcu⟩ := mergeLid_two s l f8
  have hrawc : rawJidOf c = rawJidOf s := by
    simp only [rawJidOf, hcr, hci]
  have hlidc : isLidJid (rawJidOf c) = false := by rw [hrawc]; exact f6
  refine ⟨c, ?_, hcr, hci, hcin, hcu⟩
  set es : Entry := ⟨{ s with _allJids := some [rawJidOf s] }, [rawJidOf s]⟩ with hes
  set el : Entry := ⟨{ l with _allJids := some [rawJidOf l] }, [rawJidOf l]⟩ with hel
  set ks := chatKeyOf s with hks
  set kl := chatKeyOf l with hkl
  have hkp := c5_keypass_ls s l hs hlid hop hinst
  have hunmk : unmatchedLidKeysOf ⟨[(kl, el), (ks, es)], [ks]⟩ = [kl] := by
    rw [unmatchedLidKeysOf]
    dsimp only
    rw [List.filter_cons, List.filter_cons, List.filter_nil]
    have hc1 : (isLidJid (rawJidOf es.chat) && !([ks].contains ks)) = false := by
      have : rawJidOf es.chat = rawJidOf s := rfl
      rw [this, f6, Bool.false_and]
    have hc2 : (isLidJid (rawJidOf el.chat) && !([ks].contains kl)) = true := by
      have h1 : rawJidOf el.chat = rawJidOf l := rfl
      have h2 : ([ks].contains kl) = false := by
        simp only [List.contains_cons, List.contains_nil, Bool.or_false, beq_iff_eq]
        exact decide_eq_false f5
      rw [h1, hlid, h2]
      rfl
    rw [hc1, hc2]
    rfl
  have hcands : standardKeysFor ⟨[(kl, el), (ks, es)], [ks]⟩ l.instanceName = [ks] := by
    rw [standardKeysFor]
    dsimp only
    rw [List.filter_cons, List.filter_cons, List.filter_nil]
    have hc1 : (!(isLidJid (rawJidOf es.chat)) && (es.chat.instanceName == l.instanceName))
        = true := by
      have h1 : rawJidOf es.chat = rawJidOf s := rfl
      have h2 : es.chat.instanceName = s.instanceName := rfl
      rw [h1, f6, h2]
      simp [hinst]
    have hc2 : (!(isLidJid (rawJidOf el.chat)) && (el.chat.instanceName == l.instanceName))
        = false := by
      have h1 : rawJidOf el.chat = rawJidOf l := rfl
      rw [h1, hlid]
      rfl
    rw [hc1, hc2]
    rfl
  have hlkl : lookupA kl [(kl, el), (ks, es)] = some el := by
    rw [lookupA, if_pos rfl]
  have hlks : lookupA ks [(kl, el), (ks, es)] = some es := by
    rw [lookupA, if_neg f5, lookupA, if_pos rfl]
  have hmatch : nameMatches el.chat es.chat = true := by
    rw [nameMatches]
    dsimp only
    rw [Bool.or_eq_true]
    rcases hname with ⟨hne, heq⟩ | ⟨hne, heq⟩
    · left
      rw [← heq]
      simp [hne]
    · right
      rw [← heq]
      simp [hne]
  have hgate : (normName el.chat.name != "" || normName el.chat.pushName != "") = true := by
    have h1 : el.chat.name = l.name := rfl
    have h2 : el.chat.pushName = l.pushName := rfl
    rw [h1, h2]
    rcases hname with ⟨hne, _⟩ | ⟨hne, _⟩
    · simp [hne]
    · simp [hne]
  have htry : tryMatchCandidates [(kl, el), (ks, es)] kl el [ks]
      = some [(ks, ⟨c, [rawJidOf s, rawJidOf l]⟩)] := by
    rw [tryMatchCandidates, hlks]
    dsimp only
    rw [if_pos hmatch, hcdef]
    rw [setA, if_neg f5, setA, if_pos rfl, delA, if_pos rfl]
  have hstep : namePassStep (standardKeysFor ⟨[(kl, el), (ks, es)], [ks]⟩)
      ⟨[(kl, el), (ks, es)], []⟩ kl
      = ⟨[(ks, ⟨c, [rawJidOf s, rawJidOf l]⟩)], []⟩ := by
    rw [namePassStep]
    dsimp only
    rw [hlkl]
    dsimp only
    rw [if_pos hgate]
    have : el.chat.instanceName = l.instanceName := rfl
    rw [this, hcands, htry]
  have hfinal : deduplicateChats [l, s] = ⟨[c], []⟩ := by
    rw [deduplicateChats, hkp]
    dsimp only
    rw [hunmk, List.foldl_cons, List.foldl_nil, hstep]
    dsimp only
    rw [List.filter_cons, List.filter_nil]
    have hcnd : (!(isLidJid (rawJidOf c) && ([ks].contains ks))) = true := by
      rw [hlidc]
      rfl
    rw [hcnd]
    rfl
  exact hfinal


/-- **C5.** A standard-kind and a linked-kind record of the same instance
whose trimmed, case-folded display names (or push names) agree on a non-empty
name, the linked one opaque (normalization a no-op), dedupe to exactly one
output row, in either input order: the representative address is the standard
record's, the unread count is the sum, and nothing lands in the unmatched set. -/
theorem c5_name_merge (s l : Chat)
    (hs : isStandardUserJid (rawJidOf s) = true)
    (hlid : isLidJid (rawJidOf l) = true)
    (hop : normalizeJid (rawJidOf l) = rawJidOf l)
    (hinst : l.instanceName = s.instanceName)
    (hname : (normName l.name ≠ "" ∧ normName l.name = normName s.name)
      ∨ (normName l.pushName ≠ "" ∧ normName l.pushName = normName s.pushName)) :
    (∃ c : Chat,
        deduplicateChats [s, l] = ⟨[c], []⟩
          ∧ c.remoteJid = s.remoteJid ∧ c.id = s.id ∧ c.instanceName = s.instanceName
          ∧ c.unreadCount = s.unreadCount + l.unreadCount)
      ∧ (∃ c : Chat,
        deduplicateChats [l, s] = ⟨[c], []⟩
          ∧ c.remoteJid = s.remoteJid ∧ c.id = s.id ∧ c.instanceName = s.instanceName
          ∧ c.unreadCount = s.unreadCount + l.unreadCount) :=
  ⟨c5_np_sl s l hs hlid hop hinst hname, c5_np_ls s l hs hlid hop hinst hname⟩

/-- Witness for C5 at concrete records. -/
theorem c5_witness :
    (isStandardUserJid (rawJidOf c5Std) = true
        ∧ isLidJid (rawJidOf c5Lid) = true
        ∧ normalizeJid (rawJidOf c5Lid) = rawJidOf c5Lid
        ∧ c5Lid.instanceName = c5Std.instanceName
        ∧ normName c5Lid.name ≠ "" ∧ normName c5Lid.name = normName c5Std.name)
      ∧ ∃ c : Chat,
          deduplicateChats [c5Std, c5Lid] = ⟨[c], []⟩
            ∧ c.unreadCount = c5Std.unreadCount + c5Lid.unreadCount := by
  refine ⟨⟨by decide, by decide, by decide, by decide, by decide, by decide⟩, ?_⟩
  obtain ⟨⟨c, hd, _, _, _, hu⟩, _⟩ := c5_name_merge c5Std c5Lid (by decide) (by decide)
    (by decide) (by decide) (Or.inl ⟨by decide, by decide⟩)
  exact ⟨c, hd, hu⟩

end Wpp
namespace Wpp

section AssocToolkit

variable {α : Type}

theorem lookupA_eq_none {k : String} {m : List (String × α)} :
    lookupA k m = none ↔ ∀ p ∈ m, p.1 ≠ k := by
  induction m with
  | nil => simp [lookupA]
  | cons p rest ih =>
    rw [lookupA]
    by_cases h : p.1 = k
    · simp [h]
    · simp [h, ih]

theorem lookupA_mem {k : String} {v : α} {m : List (String × α)}
    (h : lookupA k m = some v) : (k, v) ∈ m := by
  induction m with
  | nil => simp [lookupA] at h
  | cons p rest ih =>
    rw [lookupA] at h
    by_cases hp : p.1 = k
    · rw [if_pos hp] at h
      obtain rfl := Option.some.inj h
      have hkp : (k, p.2) = p := by rw [← hp]
      rw [hkp]
      exact List.mem_cons_self p rest
    · rw [if_neg hp] at h
      exact List.mem_cons_of_mem _ (ih h)

theorem mem_setA {k : String} {v : α} {p : String × α} {m : List (String × α)}
    (h : p ∈ setA k v m) : p = (k, v) ∨ p ∈ m := by
  induction m with
  | nil => simpa [setA] using h
  | cons q rest ih =>
    rw [setA] at h
    by_cases hq : q.1 = k
    · rw [if_pos hq] at h
      rcases List.mem_cons.mp h with rfl | h
      · exact Or.inl rfl
      · exact Or.inr (List.mem_cons_of_mem _ h)
    · rw [if_neg hq] at h
      rcases List.mem_cons.mp h with rfl | h
      · exact Or.inr (List.mem_cons_self _ _)
      · rcases ih h with h | h
        · exact Or.inl h
        · exact Or.inr (List.mem_cons_of_mem _ h)

theorem setA_keys_of_lookup_some {k : String} {v w : α} {m : List (String × α)}
    (h : lookupA k m = some w) :
    (setA k v m).map Prod.fst = m.map Prod.fst := by
  induction m with
  | nil => simp [lookupA] at h
  | cons q rest ih =>
    rw [lookupA] at h
    rw [setA]
    by_cases hq : q.1 = k
    · rw [if_pos hq]
      simp [hq]
    · rw [if_neg hq] at h ⊢
      simp [ih h]

theorem setA_keys_of_lookup_none {k : String} {v : α} {m : List (String × α)}
    (h : lookupA k m = none) :
    (setA k v m).map Prod.fst = m.map Prod.fst ++ [k] := by
  induction m with
  | nil => simp [setA]
  | cons q rest ih =>
    rw [lookupA] at h
    rw [setA]
    by_cases hq : q.1 = k
    · rw [if_pos hq] at h
      cases h
    · rw [if_neg hq] at h ⊢
      simp [ih h]

theorem lookupA_setA_self {k : String} {v : α} {m : List (String × α)} :
    lookupA k (setA k v m) = some v := by
  induction m with
  | nil => simp [setA, lookupA]
  | cons q rest ih =>
    rw [setA]
    by_cases hq : q.1 = k
    · rw [if_pos hq, lookupA, if_pos rfl]
    · rw [if_neg hq, lookupA, if_neg hq]
      exact ih

theorem lookupA_setA_ne {k k' : String} {v : α} {m : List (String × α)} (h : k' ≠ k) :
    lookupA k' (setA k v m) = lookupA k' m := by
  induction m with
  | nil => simp [setA, lookupA, Ne.symm h]
  | cons q rest ih =>
    rw [setA]
    by_cases hq : q.1 = k
    · rw [if_pos hq, lookupA, if_neg (Ne.symm h), lookupA,
        if_neg (by rw [hq]; exact Ne.symm h)]
    · rw [if_neg hq, lookupA, lookupA]
      by_cases hq' : q.1 = k'
      · rw [if_pos hq', if_pos hq']
      · rw [if_neg hq', if_neg hq', ih]

theorem mem_delA {k : String} {p : String × α} {m : List (String × α)}
    (h : p ∈ delA k m) : p ∈ m := by
  induction m with
  | nil => simpa [delA] using h
  | cons q rest ih =>
    rw [delA] at h
    by_cases hq : q.1 = k
    · rw [if_pos hq] at h
      exact List.mem_cons_of_mem _ h
    · rw [if_neg hq] at h
      rcases List.mem_cons.mp h with rfl | h
      · exact List.mem_cons_self _ _
      · exact List.mem_cons_of_mem _ (ih h)

theorem delA_keys_sublist {k : String} {m : List (String × α)} :
    List.Sublist ((delA k m).map Prod.fst) (m.map Prod.fst) := by
  induction m with
  | nil => simp [delA]
  | cons q rest ih =>
    rw [delA]
    by_cases hq : q.1 = k
    · rw [if_pos hq]
      simp only [List.map_cons]
      exact List.sublist_cons_self _ _
    · rw [if_neg hq]
      simp only [List.map_cons]
      exact List.Sublist.cons₂ _ ih

theorem lookupA_delA_ne {k k' : String} {m : List (String × α)} (h : k' ≠ k) :
    lookupA k' (delA k m) = lookupA k' m := by
  induction m with
  | nil => simp [delA]
  | cons q rest ih =>
    rw [delA]
    by_cases hq : q.1 = k
    · rw [if_pos hq]
      have hrhs : lookupA k' (q :: rest) = lookupA k' rest := by
        rw [lookupA, if_neg (by rw [hq]; exact Ne.symm h)]
      rw [hrhs]
    · rw [if_neg hq, lookupA, lookupA]
      by_cases hq' : q.1 = k'
      · rw [if_pos hq', if_pos hq']
      · rw [if_neg hq', if_neg hq', ih]

theorem lookupA_delA_self {k : String} {m : List (String × α)}
    (h : (m.map Prod.fst).Nodup) : lookupA k (delA k m) = none := by
  induction m with
  | nil => simp [delA, lookupA]
  | cons q rest ih =>
    rw [List.map_cons, List.nodup_cons] at h
    rw [delA]
    by_cases hq : q.1 = k
    · rw [if_pos hq]
      rw [lookupA_eq_none]
      intro p hp hpk
      exact h.1 (hq ▸ hpk ▸ List.mem_map_of_mem Prod.fst hp)
    · rw [if_neg hq, lookupA, if_neg hq]
      exact ih h.2

end AssocToolkit

end Wpp
namespace Wpp

theorem lookupA_eq_none_iff_keys {α : Type} {k : String} {m : List (String × α)} :
    lookupA k m = none ↔ k ∉ m.map Prod.fst := by
  rw [lookupA_eq_none]
  constructor
  · intro h hk
    obtain ⟨p, hp, hpk⟩ := List.mem_map.mp hk
    exact h p hp hpk
  · intro h p hp hpk
    exact h (hpk ▸ List.mem_map_of_mem Prod.fst hp)

theorem lookupA_append_left {α : Type} {k : String} {m w : List (String × α)} {v : α}
    (h : lookupA k m = some v) : lookupA k (m ++ w) = some v := by
  induction m with
  | nil => simp [lookupA] at h
  | cons q rest ih =>
    rw [lookupA] at h
    rw [List.cons_append, lookupA]
    by_cases hq : q.1 = k
    · rwa [if_pos hq] at h ⊢
    · rw [if_neg hq] at h ⊢
      exact ih h

theorem lookupA_append_right {α : Type} {k : String} {m w : List (String × α)}
    (h : lookupA k m = none) : lookupA k (m ++ w) = lookupA k w := by
  induction m with
  | nil => simp
  | cons q rest ih =>
    rw [lookupA] at h
    rw [List.cons_append, lookupA]
    by_cases hq : q.1 = k
    · rw [if_pos hq] at h
      cases h
    · rw [if_neg hq] at h ⊢
      exact ih h

theorem rawJidOf_set_remoteJid {c : Chat} {r : String} (h : r ≠ "") :
    rawJidOf { c with remoteJid := r } = r := by
  rw [rawJidOf, if_pos h]

/-- One key-pass step on a chat whose canonical key differs from `c`'s
preserves the C6 bookkeeping: unique keys, `c`'s key outside the standard
set, no foreign entry carrying `c`'s raw address and instance, and the entry
stored under `c`'s key. -/
theorem keyPassStep_c6_pres (c d : Chat) (st : KeyPassState)
    (hlid : isLidJid (rawJidOf c) = true)
    (hkd : chatKeyOf d ≠ chatKeyOf c)
    (hnd : (st.map.map Prod.fst).Nodup)
    (hhs : chatKeyOf c ∉ st.hasStandardJid)
    (hpair : ∀ p ∈ st.map, p.1 ≠ chatKeyOf c →
        ¬(rawJidOf p.2.chat = rawJidOf c ∧ p.2.chat.instanceName = c.instanceName)) :
    ((keyPassStep st d).map.map Prod.fst).Nodup
      ∧ chatKeyOf c ∉ (keyPassStep st d).hasStandardJid
      ∧ (∀ p ∈ (keyPassStep st d).map, p.1 ≠ chatKeyOf c →
          ¬(rawJidOf p.2.chat = rawJidOf c ∧ p.2.chat.instanceName = c.instanceName))
      ∧ lookupA (chatKeyOf c) (keyPassStep st d).map = lookupA (chatKeyOf c) st.map := by
  by_cases hraw : rawJidOf d = ""
  · rw [keyPassStep_skip hraw]
    exact ⟨hnd, hhs, hpair, rfl⟩
  · have hhs' : chatKeyOf c ∉
        (if isStandardUserJid (rawJidOf d) then st.hasStandardJid ++ [chatKeyOf d]
         else st.hasStandardJid) := by
      split
      · intro hmem
        rcases List.mem_append.mp hmem with h | h
        · exact hhs h
        · exact hkd (List.mem_singleton.mp h).symm
      · exact hhs
    cases hl : lookupA (chatKeyOf d) st.map with
    | none =>
      rw [keyPassStep_insert hraw hl]
      refine ⟨?_, hhs', ?_, ?_⟩
      · rw [setA_keys_of_lookup_none hl]
        rw [List.nodup_append]
        exact ⟨hnd, List.nodup_singleton _,
          by simpa using fun h => (lookupA_eq_none_iff_keys.mp hl) h⟩
      · intro p hp hpk
        rcases mem_setA hp with rfl | hp'
        · intro ⟨hr, hi⟩
          rw [rawJidOf_set_allJids] at hr
          apply hkd
          rw [chatKeyOf, chatKeyOf, hr, hi]
        · exact hpair p hp' hpk
      · exact lookupA_setA_ne (Ne.symm hkd)
    | some ex =>
      have hexm : (chatKeyOf d, ex) ∈ st.map := lookupA_mem hl
      have hexp : ¬(rawJidOf ex.chat = rawJidOf c ∧ ex.chat.instanceName = c.instanceName) :=
        hpair _ hexm hkd
      rw [keyPassStep_merge hraw hl]
      dsimp only
      refine ⟨?_, hhs', ?_, ?_⟩
      · rw [setA_keys_of_lookup_some hl]
        exact hnd
      · intro p hp hpk
        rcases mem_setA hp with rfl | hp'
        · dsimp only
          rw [show getChatTimestamp
              { ex.chat with _allJids := some (ex.allJids ++ [rawJidOf d]) }
              = getChatTimestamp ex.chat from rfl]
          by_cases hts : getChatTimestamp ex.chat < getChatTimestamp d
          · rw [if_pos hts]
            dsimp only
            by_cases hpr : (isStandardUserJid (rawJidOf d)
                && !(isStandardUserJid d.remoteJid)) = true
            · rw [if_pos hpr]
              have hstd : isStandardUserJid (rawJidOf d) = true := by
                rw [Bool.and_eq_true] at hpr
                exact hpr.1
              intro ⟨hr, _⟩
              rw [rawJidOf] at hr
              dsimp only at hr
              rw [if_pos hraw] at hr
              exact ne_of_lid_std hlid hstd hr.symm
            · rw [if_neg hpr]
              intro ⟨hr, hi⟩
              apply hkd
              have hr' : rawJidOf d = rawJidOf c := hr
              have hi' : d.instanceName = c.instanceName := hi
              rw [chatKeyOf, chatKeyOf, hr', hi']
          · rw [if_neg hts]
            dsimp only
            by_cases hpr : (isStandardUserJid (rawJidOf d)
                && !(isStandardUserJid ex.chat.remoteJid)) = true
            · rw [if_pos hpr]
              have hstd : isStandardUserJid (rawJidOf d) = true := by
                rw [Bool.and_eq_true] at hpr
                exact hpr.1
              intro ⟨hr, _⟩
              rw [rawJidOf] at hr
              dsimp only at hr
              rw [if_pos hraw] at hr
              exact ne_of_lid_std hlid hstd hr.symm
            · rw [if_neg hpr]
              intro ⟨hr, hi⟩
              exact hexp ⟨hr, hi⟩
        · exact hpair p hp' hpk
      · exact lookupA_setA_ne (Ne.symm hkd)

end Wpp
namespace Wpp

/-- Folding the key pass over a list of chats whose keys all differ from
`c`'s preserves the C6 bookkeeping. -/
theorem keyPass_fold_c6_pres (c : Chat) (ds : List Chat) (st : KeyPassState)
    (hlid : isLidJid (rawJidOf c) = true)
    (hkd : ∀ d ∈ ds, chatKeyOf d ≠ chatKeyOf c)
    (hnd : (st.map.map Prod.fst).Nodup)
    (hhs : chatKeyOf c ∉ st.hasStandardJid)
    (hpair : ∀ p ∈ st.map, p.1 ≠ chatKeyOf c →
        ¬(rawJidOf p.2.chat = rawJidOf c ∧ p.2.chat.instanceName = c.instanceName)) :
    (((ds.foldl keyPassStep st).map.map Prod.fst).Nodup
      ∧ chatKeyOf c ∉ (ds.foldl keyPassStep st).hasStandardJid
      ∧ (∀ p ∈ (ds.foldl keyPassStep st).map, p.1 ≠ chatKeyOf c →
          ¬(rawJidOf p.2.chat = rawJidOf c ∧ p.2.chat.instanceName = c.instanceName)))
      ∧ lookupA (chatKeyOf c) (ds.foldl keyPassStep st).map
          = lookupA (chatKeyOf c) st.map := by
  induction ds generalizing st with
  | nil => exact ⟨⟨hnd, hhs, hpair⟩, rfl⟩
  | cons d rest ih =>
    rw [List.foldl_cons]
    obtain ⟨h1, h2, h3, h4⟩ := keyPassStep_c6_pres c d st hlid
      (hkd d (List.mem_cons_self d rest)) hnd hhs hpair
    obtain ⟨hrec, hlook⟩ := ih (keyPassStep st d)
      (fun x hx => hkd x (List.mem_cons_of_mem d hx)) h1 h2 h3
    exact ⟨hrec, hlook.trans h4⟩

/-- The step that inserts `c` itself. -/
theorem keyPassStep_c6_insert (c : Chat) (st : KeyPassState)
    (hlid : isLidJid (rawJidOf c) = true)
    (hnd : (st.map.map Prod.fst).Nodup)
    (hhs : chatKeyOf c ∉ st.hasStandardJid)
    (hpair : ∀ p ∈ st.map, p.1 ≠ chatKeyOf c →
        ¬(rawJidOf p.2.chat = rawJidOf c ∧ p.2.chat.instanceName = c.instanceName))
    (hlk : lookupA (chatKeyOf c) st.map = none) :
    ((keyPassStep st c).map.map Prod.fst).Nodup
      ∧ chatKeyOf c ∉ (keyPassStep st c).hasStandardJid
      ∧ (∀ p ∈ (keyPassStep st c).map, p.1 ≠ chatKeyOf c →
          ¬(rawJidOf p.2.chat = rawJidOf c ∧ p.2.chat.instanceName = c.instanceName))
      ∧ lookupA (chatKeyOf c) (keyPassStep st c).map
          = some ⟨{ c with _allJids := some [rawJidOf c] }, [rawJidOf c]⟩ := by
  have hraw : rawJidOf c ≠ "" := ne_empty_of_endsWith hlid (by decide)
  have hstd : isStandardUserJid (rawJidOf c) = false := lid_not_std hlid
  rw [keyPassStep_insert hraw hlk]
  refine ⟨?_, ?_, ?_, ?_⟩
  · rw [setA_keys_of_lookup_none hlk, List.nodup_append]
    exact ⟨hnd, List.nodup_singleton _,
      by simpa using fun h => (lookupA_eq_none_iff_keys.mp hlk) h⟩
  · rw [hstd]
    exact hhs
  · intro p hp hpk
    rcases mem_setA hp with rfl | hp'
    · exact absurd rfl hpk
    · exact hpair p hp' hpk
  · exact lookupA_setA_self

end Wpp
namespace Wpp

theorem sameIdent_refl (e : Entry) : sameIdent e e := ⟨rfl, rfl, rfl, rfl⟩

theorem sameIdent_trans {a b c : Entry} (h1 : sameIdent a b) (h2 : sameIdent b c) :
    sameIdent a c :=
  ⟨h1.1.trans h2.1, h1.2.1.trans h2.2.1, h1.2.2.1.trans h2.2.2.1, h1.2.2.2.trans h2.2.2.2⟩

theorem lookupA_of_mem_nodup {α : Type} {k : String} {v : α} {m : List (String × α)}
    (h : (k, v) ∈ m) (hn : (m.map Prod.fst).Nodup) : lookupA k m = some v := by
  induction m with
  | nil => cases h
  | cons q rest ih =>
    rw [List.map_cons, List.nodup_cons] at hn
    rcases List.mem_cons.mp h with rfl | h'
    · rw [lookupA, if_pos rfl]
    · rw [lookupA]
      by_cases hq : q.1 = k
      · exfalso
        exact hn.1 (hq ▸ List.mem_map_of_mem Prod.fst h')
      · rw [if_neg hq]
        exact ih h' hn.2

theorem mem_assoc_unique {α : Type} {k : String} {v w : α} {m : List (String × α)}
    (hn : (m.map Prod.fst).Nodup) (h1 : (k, v) ∈ m) (h2 : (k, w) ∈ m) : v = w := by
  have := (lookupA_of_mem_nodup h1 hn).symm.trans (lookupA_of_mem_nodup h2 hn)
  exact Option.some.inj this

theorem mergeLidIntoStd_ident (lidE std : Entry) :
    sameIdent (mergeLidIntoStd lidE std) std := by
  rw [mergeLidIntoStd]
  dsimp only
  split
  · exact ⟨rfl, rfl, rfl, rfl⟩
  · exact ⟨rfl, rfl, rfl, rfl⟩

theorem nameMatches_congr_right {a b b' : Chat} (hn : b.name = b'.name)
    (hp : b.pushName = b'.pushName) : nameMatches a b = nameMatches a b' := by
  rw [nameMatches, nameMatches, hn, hp]

theorem mem_standardKeysFor {kp : KeyPassState} {inst k : String}
    (h : k ∈ standardKeysFor kp inst) :
    ∃ e, (k, e) ∈ kp.map ∧ isLidJid (rawJidOf e.chat) = false
      ∧ e.chat.instanceName = inst := by
  rw [standardKeysFor] at h
  obtain ⟨p, hp, hpk⟩ := List.mem_map.mp h
  obtain ⟨hpm, hcond⟩ := List.mem_filter.mp hp
  rw [Bool.and_eq_true] at hcond
  obtain ⟨h1, h2⟩ := hcond
  refine ⟨p.2, hpk ▸ hpm, ?_, ?_⟩
  · rwa [Bool.not_eq_true'] at h1
  · exact beq_iff_eq.mp h2

theorem addUnmatched_mono {u : List (String × List String)} {inst i : String}
    {jids J : List String} {x : String}
    (h : lookupA i u = some J) (hx : x ∈ J) :
    ∃ J', lookupA i (addUnmatched u inst jids) = some J' ∧ x ∈ J' := by
  rw [addUnmatched]
  cases hl : lookupA inst u with
  | none => exact ⟨J, lookupA_append_left h, hx⟩
  | some ex =>
    by_cases hi : i = inst
    · subst hi
      rw [h] at hl
      obtain rfl := Option.some.inj hl
      exact ⟨J ++ jids, lookupA_setA_self, List.mem_append_left _ hx⟩
    · exact ⟨J, (lookupA_setA_ne hi).trans h, hx⟩

theorem addUnmatched_self (u : List (String × List String)) (inst : String)
    (jids : List String) :
    ∃ J, lookupA inst (addUnmatched u inst jids) = some J ∧ ∀ x ∈ jids, x ∈ J := by
  rw [addUnmatched]
  cases hl : lookupA inst u with
  | none =>
    refine ⟨jids, ?_, fun x hx => hx⟩
    rw [lookupA_append_right hl, lookupA, if_pos rfl]
  | some ex =>
    exact ⟨ex ++ jids, lookupA_setA_self, fun x hx => List.mem_append_right _ hx⟩

theorem tryMatch_none_of_no_match {mp : List (String × Entry)} {κ : String} {lidE : Entry}
    {ks : List String}
    (h : ∀ k ∈ ks, ∀ std, lookupA k mp = some std →
        nameMatches lidE.chat std.chat = false) :
    tryMatchCandidates mp κ lidE ks = none := by
  induction ks with
  | nil => rfl
  | cons k rest ih =>
    rw [tryMatchCandidates]
    cases hl : lookupA k mp with
    | none => exact ih (fun x hx => h x (List.mem_cons_of_mem k hx))
    | some std =>
      dsimp only
      rw [if_neg (by rw [h k (List.mem_cons_self k rest) std hl]; exact Bool.false_ne_true)]
      exact ih (fun x hx => h x (List.mem_cons_of_mem k hx))

theorem tryMatch_some_shape {mp : List (String × Entry)} {κ : String} {lidE : Entry}
    {ks : List String} {mp' : List (String × Entry)}
    (h : tryMatchCandidates mp κ lidE ks = some mp') :
    ∃ k ∈ ks, ∃ std, lookupA k mp = some std
      ∧ mp' = delA κ (setA k (mergeLidIntoStd lidE std) mp) := by
  induction ks with
  | nil => cases h
  | cons k rest ih =>
    rw [tryMatchCandidates] at h
    cases hl : lookupA k mp with
    | none =>
      rw [hl] at h
      obtain ⟨k', hk', hrest⟩ := ih h
      exact ⟨k', List.mem_cons_of_mem k hk', hrest⟩
    | some std =>
      rw [hl] at h
      dsimp only at h
      by_cases hm : nameMatches lidE.chat std.chat = true
      · rw [if_pos hm] at h
        exact ⟨k, List.mem_cons_self k rest, std, hl, (Option.some.inj h).symm⟩
      · rw [if_neg hm] at h
        obtain ⟨k', hk', hrest⟩ := ih h
        exact ⟨k', List.mem_cons_of_mem k hk', hrest⟩

end Wpp
namespace Wpp

/-- One name-pass step on a key other than `c`'s preserves unique keys, the
identity correspondence to the key-pass map, the entry under `c`'s key, and
everything recorded in the unmatched buckets. -/
theorem namePassStep_c6_pres (kpmap : List (String × Entry)) (kc : String)
    (stdKeys : String → List String)
    (hcand : ∀ inst k, k ∈ stdKeys inst → k ≠ kc)
    (st : NamePassState) (κ : String) (hκ : κ ≠ kc)
    (hnd : (st.map.map Prod.fst).Nodup)
    (hQ : ∀ p ∈ st.map, ∃ e₀, (p.1, e₀) ∈ kpmap ∧ sameIdent p.2 e₀) :
    (((namePassStep stdKeys st κ).map.map Prod.fst).Nodup
      ∧ (∀ p ∈ (namePassStep stdKeys st κ).map, ∃ e₀, (p.1, e₀) ∈ kpmap ∧ sameIdent p.2 e₀)
      ∧ lookupA kc (namePassStep stdKeys st κ).map = lookupA kc st.map)
      ∧ (∀ i J x, lookupA i st.unmatched = some J → x ∈ J →
          ∃ J', lookupA i (namePassStep stdKeys st κ).unmatched = some J' ∧ x ∈ J') := by
  rw [namePassStep]
  cases hl : lookupA κ st.map with
  | none => exact ⟨⟨hnd, hQ, rfl⟩, fun i J x h hx => ⟨J, h, hx⟩⟩
  | some lidE =>
    dsimp only
    cases hattempt : (if (normName lidE.chat.name != "" || normName lidE.chat.pushName != "")
        = true then tryMatchCandidates st.map κ lidE (stdKeys lidE.chat.instanceName)
        else none) with
    | none =>
      refine ⟨⟨?_, ?_, ?_⟩, ?_⟩
      · exact List.Nodup.sublist delA_keys_sublist hnd
      · intro p hp
        exact hQ p (mem_delA hp)
      · exact lookupA_delA_ne (Ne.symm hκ)
      · intro i J x h hx
        exact addUnmatched_mono h hx
    | some mp' =>
      have hshape : ∃ k ∈ stdKeys lidE.chat.instanceName, ∃ std,
          lookupA k st.map = some std
            ∧ mp' = delA κ (setA k (mergeLidIntoStd lidE std) st.map) := by
        by_cases hg : (normName lidE.chat.name != "" || normName lidE.chat.pushName != "")
            = true
        · rw [if_pos hg] at hattempt
          exact tryMatch_some_shape hattempt
        · rw [if_neg hg] at hattempt
          cases hattempt
      obtain ⟨k, hkmem, std, hlstd, rfl⟩ := hshape
      have hknc : k ≠ kc := hcand _ _ hkmem
      refine ⟨⟨?_, ?_, ?_⟩, ?_⟩
      · apply List.Nodup.sublist delA_keys_sublist
        rw [setA_keys_of_lookup_some hlstd]
        exact hnd
      · intro p hp
        rcases mem_setA (mem_delA hp) with rfl | hp'
        · obtain ⟨e₀, he₀, hid⟩ := hQ (k, std) (lookupA_mem hlstd)
          exact ⟨e₀, he₀, sameIdent_trans (mergeLidIntoStd_ident lidE std) hid⟩
        · exact hQ p hp'
      · rw [lookupA_delA_ne (Ne.symm hκ), lookupA_setA_ne (Ne.symm hknc)]
      · intro i J x h hx
        exact ⟨J, h, hx⟩

end Wpp
namespace Wpp

/-- A name-pass step whose matching attempt fails deletes the entry and
records its raw JIDs in its instance's unmatched bucket. -/
theorem namePassStep_eval_unmatched (stdKeys : String → List String)
    (st : NamePassState) (κ : String) (lidE : Entry)
    (hl : lookupA κ st.map = some lidE)
    (hres : (if (normName lidE.chat.name != "" || normName lidE.chat.pushName != "") = true
        then tryMatchCandidates st.map κ lidE (stdKeys lidE.chat.instanceName)
        else none) = none) :
    namePassStep stdKeys st κ =
      ⟨delA κ st.map, addUnmatched st.unmatched lidE.chat.instanceName lidE.allJids⟩ := by
  rw [namePassStep, hl]
  dsimp only
  rw [hres]

/-- Processing `c`'s own key in the name pass: no candidate matches, so the
entry is deleted and all of its raw JIDs land in its instance's unmatched
bucket. -/
theorem namePassStep_c6_self (kpmap : List (String × Entry)) (c : Chat)
    (stdKeys : String → List String)
    (st : NamePassState)
    (hnd : (st.map.map Prod.fst).Nodup)
    (hQ : ∀ p ∈ st.map, ∃ e₀, (p.1, e₀) ∈ kpmap ∧ sameIdent p.2 e₀)
    (hkpnd : (kpmap.map Prod.fst).Nodup)
    (hlc : lookupA (chatKeyOf c) st.map
      = some ⟨{ c with _allJids := some [rawJidOf c] }, [rawJidOf c]⟩)
    (hstdk : ∀ k ∈ stdKeys c.instanceName, ∃ e, (k, e) ∈ kpmap
        ∧ isLidJid (rawJidOf e.chat) = false ∧ e.chat.instanceName = c.instanceName)
    (hnames : ∀ p ∈ kpmap, isLidJid (rawJidOf p.2.chat) = false →
        p.2.chat.instanceName = c.instanceName → nameMatches c p.2.chat = false) :
    (((namePassStep stdKeys st (chatKeyOf c)).map.map Prod.fst).Nodup
      ∧ (∀ p ∈ (namePassStep stdKeys st (chatKeyOf c)).map,
          ∃ e₀, (p.1, e₀) ∈ kpmap ∧ sameIdent p.2 e₀)
      ∧ lookupA (chatKeyOf c) (namePassStep stdKeys st (chatKeyOf c)).map = none)
      ∧ (∃ J, lookupA c.instanceName (namePassStep stdKeys st (chatKeyOf c)).unmatched
          = some J ∧ rawJidOf c ∈ J) := by
  have hres : (if (normName ({ c with _allJids := some [rawJidOf c] } : Chat).name != ""
          || normName ({ c with _allJids := some [rawJidOf c] } : Chat).pushName != "") = true
      then tryMatchCandidates st.map (chatKeyOf c)
        ⟨{ c with _allJids := some [rawJidOf c] }, [rawJidOf c]⟩
        (stdKeys ({ c with _allJids := some [rawJidOf c] } : Chat).instanceName)
      else none) = none := by
    split
    · apply tryMatch_none_of_no_match
      intro k hk std hlstd
      obtain ⟨e, hem, helid, heinst⟩ := hstdk k hk
      obtain ⟨e₀, he₀m, hid⟩ := hQ (k, std) (lookupA_mem hlstd)
      have he : e₀ = e := mem_assoc_unique hkpnd he₀m hem
      have hid' : sameIdent std e := he ▸ hid
      have hm0 : nameMatches c e.chat = false := hnames (k, e) hem helid heinst
      have hcongr : nameMatches ({ c with _allJids := some [rawJidOf c] } : Chat) std.chat
          = nameMatches c e.chat := by
        have h1 : nameMatches ({ c with _allJids := some [rawJidOf c] } : Chat) std.chat
            = nameMatches c std.chat := rfl
        rw [h1]
        exact nameMatches_congr_right hid'.1 hid'.2.1
      rw [hcongr, hm0]
    · rfl
  rw [namePassStep_eval_unmatched stdKeys st (chatKeyOf c)
    ⟨{ c with _allJids := some [rawJidOf c] }, [rawJidOf c]⟩ hlc hres]
  refine ⟨⟨?_, ?_, ?_⟩, ?_⟩
  · exact List.Nodup.sublist delA_keys_sublist hnd
  · intro p hp
    exact hQ p (mem_delA hp)
  · exact lookupA_delA_self hnd
  · obtain ⟨J, hJ, hmem⟩ := addUnmatched_self st.unmatched
      (({ c with _allJids := some [rawJidOf c] } : Chat).instanceName) [rawJidOf c]
    exact ⟨J, hJ, hmem _ (List.mem_singleton_self _)⟩

end Wpp
namespace Wpp

theorem namePass_fold_c6_pres (kpmap : List (String × Entry)) (kc : String)
    (stdKeys : String → List String)
    (hcand : ∀ inst k, k ∈ stdKeys inst → k ≠ kc)
    (κs : List String) (hκs : ∀ κ ∈ κs, κ ≠ kc) :
    ∀ st : NamePassState,
    ((st.map.map Prod.fst).Nodup) →
    (∀ p ∈ st.map, ∃ e₀, (p.1, e₀) ∈ kpmap ∧ sameIdent p.2 e₀) →
    (((κs.foldl (namePassStep stdKeys) st).map.map Prod.fst).Nodup
      ∧ (∀ p ∈ (κs.foldl (namePassStep stdKeys) st).map,
          ∃ e₀, (p.1, e₀) ∈ kpmap ∧ sameIdent p.2 e₀)
      ∧ lookupA kc (κs.foldl (namePassStep stdKeys) st).map = lookupA kc st.map)
      ∧ (∀ i J x, lookupA i st.unmatched = some J → x ∈ J →
          ∃ J', lookupA i (κs.foldl (namePassStep stdKeys) st).unmatched = some J'
            ∧ x ∈ J') := by
  induction κs with
  | nil => exact fun st hnd hQ => ⟨⟨hnd, hQ, rfl⟩, fun i J x h hx => ⟨J, h, hx⟩⟩
  | cons κ rest ih =>
    intro st hnd hQ
    rw [List.foldl_cons]
    obtain ⟨⟨h1, h2, h3⟩, h4⟩ := namePassStep_c6_pres kpmap kc stdKeys hcand st κ
      (hκs κ (List.mem_cons_self κ rest)) hnd hQ
    obtain ⟨⟨g1, g2, g3⟩, g4⟩ := ih (fun x hx => hκs x (List.mem_cons_of_mem κ hx))
      (namePassStep stdKeys st κ) h1 h2
    refine ⟨⟨g1, g2, g3.trans h3⟩, ?_⟩
    intro i J x h hx
    obtain ⟨J', hJ', hx'⟩ := h4 i J x h hx
    exact g4 i J' x hJ' hx'

end Wpp
namespace Wpp

theorem contains_eq_false_of_not_mem {l : List String} {x : String} (h : x ∉ l) :
    l.contains x = false := by
  induction l with
  | nil => rfl
  | cons a rest ih =>
    simp only [List.contains_cons, Bool.or_eq_false_iff, beq_eq_false_iff_ne]
    exact ⟨fun he => h (he ▸ List.mem_cons_self a rest),
      ih (fun hx => h (List.mem_cons_of_mem a hx))⟩

end Wpp
namespace Wpp

/-- C6 (amended): a linked-kind (`@lid`) record whose key collides with no
other input record and whose names match no surviving standard entry of its
instance is dropped from the chat list and its raw address recorded under its
instance's unmatched bucket. -/
theorem c6_amended_unmatched_collected (pre post : List Chat) (c : Chat)
    (hlid : isLidJid (rawJidOf c) = true)
    (hop : normalizeJid (rawJidOf c) = rawJidOf c)
    (hkeys : ∀ d ∈ pre ++ post, chatKeyOf d ≠ chatKeyOf c)
    (hnames : ∀ p ∈ (keyPass (pre ++ c :: post)).map,
        isLidJid (rawJidOf p.2.chat) = false →
        p.2.chat.instanceName = c.instanceName → nameMatches c p.2.chat = false) :
    (∃ J, lookupA c.instanceName
        (deduplicateChats (pre ++ c :: post)).unmatchedLidsByInstance = some J
      ∧ rawJidOf c ∈ J)
    ∧ ∀ out ∈ (deduplicateChats (pre ++ c :: post)).chats,
        ¬(rawJidOf out = rawJidOf c ∧ out.instanceName = c.instanceName) := by
  clear hop
  have hkp1 : keyPass (pre ++ c :: post)
      = post.foldl keyPassStep (keyPassStep (pre.foldl keyPassStep ⟨[], []⟩) c) := by
    rw [keyPass, List.foldl_append, List.foldl_cons]
  obtain ⟨⟨hnd0, hhs0, hpair0⟩, hlk0⟩ := keyPass_fold_c6_pres c pre ⟨[], []⟩ hlid
    (fun d hd => hkeys d (List.mem_append_left post hd))
    List.nodup_nil (by simp) (by simp)
  have hlk0' : lookupA (chatKeyOf c) (pre.foldl keyPassStep ⟨[], []⟩).map = none := hlk0
  obtain ⟨hnd1, hhs1, hpair1, hlk1⟩ := keyPassStep_c6_insert c
    (pre.foldl keyPassStep ⟨[], []⟩) hlid hnd0 hhs0 hpair0 hlk0'
  obtain ⟨⟨hndk, hhsk, hpairk⟩, hlkk⟩ := keyPass_fold_c6_pres c post
    (keyPassStep (pre.foldl keyPassStep ⟨[], []⟩) c)
    hlid (fun d hd => hkeys d (List.mem_append_right pre hd)) hnd1 hhs1 hpair1
  rw [← hkp1] at hndk hhsk hpairk hlkk
  have hlkc : lookupA (chatKeyOf c) (keyPass (pre ++ c :: post)).map
      = some ⟨{ c with _allJids := some [rawJidOf c] }, [rawJidOf c]⟩ :=
    hlkk.trans hlk1
  have hkcm : chatKeyOf c ∈ unmatchedLidKeysOf (keyPass (pre ++ c :: post)) := by
    rw [unmatchedLidKeysOf]
    refine List.mem_map.mpr
      ⟨(chatKeyOf c, ⟨{ c with _allJids := some [rawJidOf c] }, [rawJidOf c]⟩),
        List.mem_filter.mpr ⟨lookupA_mem hlkc, ?_⟩, rfl⟩
    show (isLidJid (rawJidOf ({ c with _allJids := some [rawJidOf c] } : Chat))
      && !((keyPass (pre ++ c :: post)).hasStandardJid.contains (chatKeyOf c))) = true
    rw [show rawJidOf ({ c with _allJids := some [rawJidOf c] } : Chat) = rawJidOf c from rfl,
      hlid, contains_eq_false_of_not_mem hhsk]
    rfl
  have hknodup : (unmatchedLidKeysOf (keyPass (pre ++ c :: post))).Nodup := by
    rw [unmatchedLidKeysOf]
    exact List.Nodup.sublist (List.Sublist.map _ (List.filter_sublist _)) hndk
  obtain ⟨K₁, K₂, hK⟩ := List.append_of_mem hkcm
  rw [hK, List.nodup_append] at hknodup
  obtain ⟨hK₁nd, hK₂nd', hdisj⟩ := hknodup
  have hkcK₁ : chatKeyOf c ∉ K₁ := fun h => hdisj h (List.mem_cons_self _ K₂)
  have hcand : ∀ inst k, k ∈ standardKeysFor (keyPass (pre ++ c :: post)) inst →
      k ≠ chatKeyOf c := by
    intro inst k hk hkeq
    obtain ⟨e, hem, helid, _⟩ := mem_standardKeysFor hk
    subst hkeq
    have he : e = ⟨{ c with _allJids := some [rawJidOf c] }, [rawJidOf c]⟩ :=
      mem_assoc_unique hndk hem (lookupA_mem hlkc)
    rw [he, show rawJidOf ((⟨{ c with _allJids := some [rawJidOf c] },
      [rawJidOf c]⟩ : Entry)).chat = rawJidOf c from rfl, hlid] at helid
    exact absurd helid (by decide)
  have hQ0 : ∀ p ∈ (keyPass (pre ++ c :: post)).map,
      ∃ e₀, (p.1, e₀) ∈ (keyPass (pre ++ c :: post)).map ∧ sameIdent p.2 e₀ := by
    intro p hp
    exact ⟨p.2, by rw [Prod.mk.eta]; exact hp, sameIdent_refl _⟩
  obtain ⟨⟨hnd2, hQ2, hlk2⟩, _⟩ := namePass_fold_c6_pres
    (keyPass (pre ++ c :: post)).map (chatKeyOf c)
    (standardKeysFor (keyPass (pre ++ c :: post))) hcand
    K₁ (fun κ hκ hκeq => hkcK₁ (hκeq ▸ hκ))
    ⟨(keyPass (pre ++ c :: post)).map, []⟩ hndk hQ0
  have hlc1 : lookupA (chatKeyOf c)
      (K₁.foldl (namePassStep (standardKeysFor (keyPass (pre ++ c :: post))))
        ⟨(keyPass (pre ++ c :: post)).map, []⟩).map
      = some ⟨{ c with _allJids := some [rawJidOf c] }, [rawJidOf c]⟩ :=
    hlk2.trans hlkc
  obtain ⟨⟨hnd3, hQ3, hlk3⟩, J, hJ, hJmem⟩ := namePassStep_c6_self
    (keyPass (pre ++ c :: post)).map c
    (standardKeysFor (keyPass (pre ++ c :: post)))
    (K₁.foldl (namePassStep (standardKeysFor (keyPass (pre ++ c :: post))))
      ⟨(keyPass (pre ++ c :: post)).map, []⟩)
    hnd2 hQ2 hndk hlc1 (fun k hk => mem_standardKeysFor hk) hnames
  obtain ⟨⟨hnd4, hQ4, hlk4⟩, hmono⟩ := namePass_fold_c6_pres
    (keyPass (pre ++ c :: post)).map (chatKeyOf c)
    (standardKeysFor (keyPass (pre ++ c :: post))) hcand
    K₂ (fun κ hκ hκeq => (List.nodup_cons.mp hK₂nd').1 (hκeq ▸ hκ))
    (namePassStep (standardKeysFor (keyPass (pre ++ c :: post)))
      (K₁.foldl (namePassStep (standardKeysFor (keyPass (pre ++ c :: post))))
        ⟨(keyPass (pre ++ c :: post)).map, []⟩) (chatKeyOf c))
    hnd3 hQ3
  obtain ⟨J', hJ', hmem'⟩ := hmono c.instanceName J (rawJidOf c) hJ hJmem
  constructor
  · show ∃ J, lookupA c.instanceName
        (((unmatchedLidKeysOf (keyPass (pre ++ c :: post))).foldl
          (namePassStep (standardKeysFor (keyPass (pre ++ c :: post))))
          ⟨(keyPass (pre ++ c :: post)).map, []⟩).unmatched) = some J ∧ rawJidOf c ∈ J
    rw [hK, List.foldl_append, List.foldl_cons]
    exact ⟨J', hJ', hmem'⟩
  · intro out hout
    have hout' : out ∈ ((((unmatchedLidKeysOf (keyPass (pre ++ c :: post))).foldl
        (namePassStep (standardKeysFor (keyPass (pre ++ c :: post))))
        ⟨(keyPass (pre ++ c :: post)).map, []⟩).map.filter
        (fun p => !(isLidJid (rawJidOf p.2.chat)
          && (keyPass (pre ++ c :: post)).hasStandardJid.contains p.1))).map
        (·.2.chat)) := hout
    rw [hK, List.foldl_append, List.foldl_cons] at hout'
    obtain ⟨p, hpf, hpe⟩ := List.mem_map.mp hout'
    have hpm := (List.mem_filter.mp hpf).1
    by_cases hpk : p.1 = chatKeyOf c
    · have hnone := hlk4.trans hlk3
      exact absurd hpk (lookupA_eq_none.mp hnone p hpm)
    · rintro ⟨hr, hi⟩
      obtain ⟨e₀, he₀, hid⟩ := hQ4 p hpm
      have h1 : rawJidOf e₀.chat = rawJidOf c :=
        hid.2.2.2.symm.trans (by rw [hpe, hr])
      have h2 : e₀.chat.instanceName = c.instanceName :=
        hid.2.2.1.symm.trans (by rw [hpe, hi])
      exact hpairk (p.1, e₀) he₀ hpk ⟨h1, h2⟩

end Wpp
namespace Wpp

/-- C6 counterexample: `c6A` is a linked-kind record with an opaque
(non-phone-derivable) address whose names match no standard-kind record of
its instance, yet the deduplicator records nothing under
`unmatchedLidsByInstance`: a second record sharing its key diverts it. -/
theorem c6_counterexample :
    isLidJid (rawJidOf c6A) = true
    ∧ normalizeJid (rawJidOf c6A) = rawJidOf c6A
    ∧ (∀ d ∈ [c6A, c6B, c6Std], isLidJid (rawJidOf d) = false →
        d.instanceName = c6A.instanceName → nameMatches c6A d = false)
    ∧ (deduplicateChats [c6A, c6B, c6Std]).unmatchedLidsByInstance = [] := by
  decide

/-- Witness for C6 (amended) at a concrete input. -/
theorem c6_amended_witness :
    isLidJid (rawJidOf c6Solo) = true
    ∧ ((∃ J, lookupA c6Solo.instanceName
          (deduplicateChats ([] ++ c6Solo :: [])).unmatchedLidsByInstance = some J
        ∧ rawJidOf c6Solo ∈ J)
      ∧ ∀ out ∈ (deduplicateChats ([] ++ c6Solo :: [])).chats,
          ¬(rawJidOf out = rawJidOf c6Solo ∧ out.instanceName = c6Solo.instanceName)) :=
  ⟨by decide, c6_amended_unmatched_collected [] [] c6Solo (by decide) (by decide)
    (by decide) (by decide)⟩

end Wpp
namespace Wpp

theorem append_cons_inj_of_not_mem {ch : Char} :
    ∀ {xs ys u v : List Char}, ch ∉ xs → ch ∉ ys →
    xs ++ ch :: u = ys ++ ch :: v → xs = ys ∧ u = v := by
  intro xs
  induction xs with
  | nil =>
    intro ys u v _ hy h
    cases ys with
    | nil => exact ⟨rfl, List.cons.inj h |>.2⟩
    | cons y ys' =>
      rw [List.nil_append, List.cons_append] at h
      obtain ⟨h1, _⟩ := List.cons.inj h
      exact absurd (h1 ▸ List.mem_cons_self y ys') hy
  | cons x xs' ih =>
    intro ys u v hx hy h
    cases ys with
    | nil =>
      rw [List.nil_append, List.cons_append] at h
      obtain ⟨h1, _⟩ := List.cons.inj h
      exact absurd (h1.symm ▸ List.mem_cons_self x xs') hx
    | cons y ys' =>
      rw [List.cons_append, List.cons_append] at h
      obtain ⟨h1, h2⟩ := List.cons.inj h
      obtain ⟨h3, h4⟩ := ih (fun hm => hx (List.mem_cons_of_mem x hm))
        (fun hm => hy (List.mem_cons_of_mem y hm)) h2
      exact ⟨by rw [h1, h3], h4⟩

theorem key_parts_inj {n₁ i₁ n₂ i₂ : String}
    (h₁ : ('|' : Char) ∉ i₁.data) (h₂ : ('|' : Char) ∉ i₂.data)
    (h : n₁ ++ "|" ++ i₁ = n₂ ++ "|" ++ i₂) : n₁ = n₂ ∧ i₁ = i₂ := by
  have hd : n₁.data ++ '|' :: i₁.data = n₂.data ++ '|' :: i₂.data := by
    have hx := congrArg String.data h
    rw [String.data_append, String.data_append, String.data_append,
      String.data_append] at hx
    rw [show ("|" : String).data = ['|'] from rfl] at hx
    simpa [List.append_assoc] using hx
  have hr : i₁.data.reverse ++ '|' :: n₁.data.reverse
      = i₂.data.reverse ++ '|' :: n₂.data.reverse := by
    have hx := congrArg List.reverse hd
    simpa [List.reverse_append] using hx
  obtain ⟨ha, hb⟩ := append_cons_inj_of_not_mem
    (fun hm => h₁ (List.mem_reverse.mp hm)) (fun hm => h₂ (List.mem_reverse.mp hm)) hr
  refine ⟨string_eq_of_data ?_, string_eq_of_data ?_⟩
  · have := congrArg List.reverse hb
    simpa using this
  · have := congrArg List.reverse ha
    simpa using this

end Wpp
namespace Wpp

theorem chatKeyOf_set_remote {c : Chat} {r : String} (h : r ≠ "") :
    chatKeyOf { c with remoteJid := r } = normalizeJid r ++ "|" ++ c.instanceName := by
  rw [chatKeyOf, rawJidOf_set_remoteJid h]

/-- The promotion step of a key-pass merge keeps the instance name pipe-free
and keeps the stored key equal to the stored chat's canonical key. -/
theorem c1_chat3_facts (chat : Chat) (c2 : Chat) (hraw : rawJidOf chat ≠ "")
    (hc : ('|' : Char) ∉ chat.instanceName.data)
    (hfree : ('|' : Char) ∉ c2.instanceName.data)
    (hkey : chatKeyOf c2 = chatKeyOf chat) :
    (('|' : Char) ∉ ((if isStandardUserJid (rawJidOf chat) && !(isStandardUserJid c2.remoteJid)
        then { c2 with remoteJid := rawJidOf chat } else c2) : Chat).instanceName.data)
    ∧ chatKeyOf chat = chatKeyOf ((if isStandardUserJid (rawJidOf chat)
          && !(isStandardUserJid c2.remoteJid)
        then { c2 with remoteJid := rawJidOf chat } else c2) : Chat) := by
  have hinst : c2.instanceName = chat.instanceName :=
    (key_parts_inj hfree hc hkey).2
  constructor
  · split
    · exact hfree
    · exact hfree
  · split
    · rw [chatKeyOf_set_remote hraw, hinst]
      rfl
    · exact hkey.symm

end Wpp
namespace Wpp

/-- One key-pass step preserves: unique map keys, pipe-free instance names of
stored entries, and the invariant that every map key is the canonical key of
its stored chat (given a pipe-free incoming instance name). -/
theorem keyPassStep_c1_pres (st : KeyPassState) (chat : Chat)
    (hc : ('|' : Char) ∉ chat.instanceName.data)
    (hnd : (st.map.map Prod.fst).Nodup)
    (hP : ∀ p ∈ st.map, ('|' : Char) ∉ p.2.chat.instanceName.data
        ∧ p.1 = chatKeyOf p.2.chat) :
    ((keyPassStep st chat).map.map Prod.fst).Nodup
      ∧ ∀ p ∈ (keyPassStep st chat).map, ('|' : Char) ∉ p.2.chat.instanceName.data
          ∧ p.1 = chatKeyOf p.2.chat := by
  by_cases hraw : rawJidOf chat = ""
  · rw [keyPassStep_skip hraw]
    exact ⟨hnd, hP⟩
  · cases hl : lookupA (chatKeyOf chat) st.map with
    | none =>
      rw [keyPassStep_insert hraw hl]
      constructor
      · show ((setA (chatKeyOf chat) _ st.map).map Prod.fst).Nodup
        rw [setA_keys_of_lookup_none hl, List.nodup_append]
        refine ⟨hnd, List.nodup_singleton _, ?_⟩
        intro a ha hb
        rw [List.mem_singleton] at hb
        exact (lookupA_eq_none_iff_keys.mp hl) (hb ▸ ha)
      · intro p hp
        rcases mem_setA hp with rfl | hp'
        · exact ⟨hc, rfl⟩
        · exact hP p hp'
    | some existing =>
      obtain ⟨hefree, hek⟩ := hP (chatKeyOf chat, existing) (lookupA_mem hl)
      have hek' : chatKeyOf existing.chat = chatKeyOf chat := hek.symm
      rw [keyPassStep_merge hraw hl]
      dsimp only
      constructor
      · show ((setA (chatKeyOf chat) _ st.map).map Prod.fst).Nodup
        rw [setA_keys_of_lookup_some hl]
        exact hnd
      · intro p hp
        rcases mem_setA hp with rfl | hp'
        · dsimp only
          refine c1_chat3_facts chat _ hraw hc ?_ ?_
          · split
            · exact hc
            · exact hefree
          · split
            · rfl
            · exact hek'
        · exact hP p hp'

end Wpp
namespace Wpp

theorem chatKeyOf_congr {a b : Chat} (h1 : rawJidOf a = rawJidOf b)
    (h2 : a.instanceName = b.instanceName) : chatKeyOf a = chatKeyOf b := by
  rw [chatKeyOf, chatKeyOf, h1, h2]

theorem keyPass_c1_pres_fold (ds : List Chat) :
    ∀ st : KeyPassState, (∀ c ∈ ds, ('|' : Char) ∉ c.instanceName.data) →
    ((st.map.map Prod.fst).Nodup) →
    (∀ p ∈ st.map, ('|' : Char) ∉ p.2.chat.instanceName.data
        ∧ p.1 = chatKeyOf p.2.chat) →
    (((ds.foldl keyPassStep st).map.map Prod.fst).Nodup
      ∧ ∀ p ∈ (ds.foldl keyPassStep st).map,
          ('|' : Char) ∉ p.2.chat.instanceName.data ∧ p.1 = chatKeyOf p.2.chat) := by
  induction ds with
  | nil => exact fun st _ hnd hP => ⟨hnd, hP⟩
  | cons d rest ih =>
    intro st hds hnd hP
    rw [List.foldl_cons]
    obtain ⟨h1, h2⟩ := keyPassStep_c1_pres st d (hds d (List.mem_cons_self d rest)) hnd hP
    exact ih (keyPassStep st d) (fun x hx => hds x (List.mem_cons_of_mem d hx)) h1 h2

theorem namePassStep_c1_pres (stdKeys : String → List String)
    (st : NamePassState) (κ : String)
    (hnd : (st.map.map Prod.fst).Nodup)
    (hP : ∀ p ∈ st.map, ('|' : Char) ∉ p.2.chat.instanceName.data
        ∧ p.1 = chatKeyOf p.2.chat) :
    (((namePassStep stdKeys st κ).map.map Prod.fst).Nodup
      ∧ ∀ p ∈ (namePassStep stdKeys st κ).map,
          ('|' : Char) ∉ p.2.chat.instanceName.data ∧ p.1 = chatKeyOf p.2.chat) := by
  rw [namePassStep]
  cases hl : lookupA κ st.map with
  | none => exact ⟨hnd, hP⟩
  | some lidE =>
    dsimp only
    cases hattempt : (if (normName lidE.chat.name != "" || normName lidE.chat.pushName != "")
        = true then tryMatchCandidates st.map κ lidE (stdKeys lidE.chat.instanceName)
        else none) with
    | none =>
      refine ⟨List.Nodup.sublist delA_keys_sublist hnd, ?_⟩
      intro p hp
      exact hP p (mem_delA hp)
    | some mp' =>
      have hshape : ∃ k, ∃ std, lookupA k st.map = some std
          ∧ mp' = delA κ (setA k (mergeLidIntoStd lidE std) st.map) := by
        by_cases hg : (normName lidE.chat.name != "" || normName lidE.chat.pushName != "")
            = true
        · rw [if_pos hg] at hattempt
          obtain ⟨k, _, std, hlstd, hres⟩ := tryMatch_some_shape hattempt
          exact ⟨k, std, hlstd, hres⟩
        · rw [if_neg hg] at hattempt
          cases hattempt
      obtain ⟨k, std, hlstd, rfl⟩ := hshape
      constructor
      · apply List.Nodup.sublist delA_keys_sublist
        rw [setA_keys_of_lookup_some hlstd]
        exact hnd
      · intro p hp
        rcases mem_setA (mem_delA hp) with rfl | hp'
        · obtain ⟨hfree, hkey⟩ := hP (k, std) (lookupA_mem hlstd)
          have hid := mergeLidIntoStd_ident lidE std
          constructor
          · rw [show ((k, mergeLidIntoStd lidE std) : String × Entry).2.chat.instanceName
              = (mergeLidIntoStd lidE std).chat.instanceName from rfl, hid.2.2.1]
            exact hfree
          · show k = chatKeyOf (mergeLidIntoStd lidE std).chat
            rw [chatKeyOf_congr hid.2.2.2 hid.2.2.1]
            exact hkey
        · exact hP p hp'

theorem namePass_c1_pres_fold (stdKeys : String → List String) (κs : List String) :
    ∀ st : NamePassState, ((st.map.map Prod.fst).Nodup) →
    (∀ p ∈ st.map, ('|' : Char) ∉ p.2.chat.instanceName.data
        ∧ p.1 = chatKeyOf p.2.chat) →
    (((κs.foldl (namePassStep stdKeys) st).map.map Prod.fst).Nodup
      ∧ ∀ p ∈ (κs.foldl (namePassStep stdKeys) st).map,
          ('|' : Char) ∉ p.2.chat.instanceName.data ∧ p.1 = chatKeyOf p.2.chat) := by
  induction κs with
  | nil => exact fun st hnd hP => ⟨hnd, hP⟩
  | cons κ rest ih =>
    intro st hnd hP
    rw [List.foldl_cons]
    obtain ⟨h1, h2⟩ := namePassStep_c1_pres stdKeys st κ hnd hP
    exact ih (namePassStep stdKeys st κ) h1 h2

end Wpp
namespace Wpp

/-- C1 (amended): when no input instance name contains the key-separator
character, the deduplicated chat list carries pairwise distinct canonical
(normalized address, instance name) pairs. -/
theorem c1_amended_key_injective (chats : List Chat)
    (hfree : ∀ chat ∈ chats, ('|' : Char) ∉ chat.instanceName.data) :
    ((deduplicateChats chats).chats.map canonicalPairOf).Nodup := by
  obtain ⟨hndk, hPk⟩ := keyPass_c1_pres_fold chats ⟨[], []⟩ hfree List.nodup_nil (by simp)
  obtain ⟨hnd2, hP2⟩ := namePass_c1_pres_fold (standardKeysFor (keyPass chats))
    (unmatchedLidKeysOf (keyPass chats)) ⟨(keyPass chats).map, []⟩ hndk hPk
  have hchats : (deduplicateChats chats).chats
      = ((((unmatchedLidKeysOf (keyPass chats)).foldl
          (namePassStep (standardKeysFor (keyPass chats)))
          ⟨(keyPass chats).map, []⟩).map.filter
        (fun p => !(isLidJid (rawJidOf p.2.chat)
          && (keyPass chats).hasStandardJid.contains p.1))).map (·.2.chat)) := rfl
  rw [hchats, List.map_map]
  have hfnd : ((((unmatchedLidKeysOf (keyPass chats)).foldl
      (namePassStep (standardKeysFor (keyPass chats)))
      ⟨(keyPass chats).map, []⟩).map.filter
      (fun p => !(isLidJid (rawJidOf p.2.chat)
        && (keyPass chats).hasStandardJid.contains p.1))).map Prod.fst).Nodup :=
    List.Nodup.sublist (List.Sublist.map _ (List.filter_sublist _)) hnd2
  refine List.Nodup.map_on ?_ (List.Nodup.of_map Prod.fst hfnd)
  intro x hx y hy hxy
  have hxm := (List.mem_filter.mp hx).1
  have hym := (List.mem_filter.mp hy).1
  obtain ⟨_, hxk⟩ := hP2 x hxm
  obtain ⟨_, hyk⟩ := hP2 y hym
  have hpair : canonicalPairOf x.2.chat = canonicalPairOf y.2.chat := hxy
  rw [canonicalPairOf, canonicalPairOf, Prod.mk.injEq] at hpair
  have hkey : x.1 = y.1 := by
    rw [hxk, hyk, chatKeyOf, chatKeyOf, hpair.1, hpair.2]
  have hx' : (x.1, x.2) ∈ (((unmatchedLidKeysOf (keyPass chats)).foldl
      (namePassStep (standardKeysFor (keyPass chats)))
      ⟨(keyPass chats).map, []⟩).map.filter
      (fun p => !(isLidJid (rawJidOf p.2.chat)
        && (keyPass chats).hasStandardJid.contains p.1))) := by
    rw [Prod.mk.eta]; exact hx
  have hy' : (x.1, y.2) ∈ (((unmatchedLidKeysOf (keyPass chats)).foldl
      (namePassStep (standardKeysFor (keyPass chats)))
      ⟨(keyPass chats).map, []⟩).map.filter
      (fun p => !(isLidJid (rawJidOf p.2.chat)
        && (keyPass chats).hasStandardJid.contains p.1))) := by
    rw [hkey, Prod.mk.eta]; exact hy
  have h2 : x.2 = y.2 := mem_assoc_unique hfnd hx' hy'
  exact Prod.ext hkey h2

/-- Witness for C1 (amended) at a concrete input. -/
theorem c1_amended_witness :
    (∀ chat ∈ [c1ChatC], ('|' : Char) ∉ chat.instanceName.data)
    ∧ ((deduplicateChats [c1ChatC]).chats.map canonicalPairOf).Nodup :=
  ⟨by decide, c1_amended_key_injective [c1ChatC] (by decide)⟩

end Wpp
namespace Wpp

theorem chat3_instQ (Q : String → Prop) (chat c2 : Chat) (hfree : Q c2.instanceName) :
    Q (((if isStandardUserJid (rawJidOf chat) && !(isStandardUserJid c2.remoteJid)
        then { c2 with remoteJid := rawJidOf chat } else c2) : Chat).instanceName) := by
  split
  · exact hfree
  · exact hfree

theorem keyPassStep_instQ_pres (Q : String → Prop) (st : KeyPassState) (chat : Chat)
    (hc : Q chat.instanceName)
    (hP : ∀ p ∈ st.map, Q p.2.chat.instanceName) :
    ∀ p ∈ (keyPassStep st chat).map, Q p.2.chat.instanceName := by
  by_cases hraw : rawJidOf chat = ""
  · rw [keyPassStep_skip hraw]
    exact hP
  · cases hl : lookupA (chatKeyOf chat) st.map with
    | none =>
      rw [keyPassStep_insert hraw hl]
      intro p hp
      rcases mem_setA hp with rfl | hp'
      · exact hc
      · exact hP p hp'
    | some existing =>
      have hefree : Q existing.chat.instanceName :=
        hP (chatKeyOf chat, existing) (lookupA_mem hl)
      rw [keyPassStep_merge hraw hl]
      dsimp only
      intro p hp
      rcases mem_setA hp with rfl | hp'
      · dsimp only
        refine chat3_instQ Q chat _ ?_
        split
        · exact hc
        · exact hefree
      · exact hP p hp'

theorem mem_addUnmatched {u : List (String × List String)} {i : String}
    {js : List String} {b : String × List String} (h : b ∈ addUnmatched u i js) :
    b.1 = i ∨ b ∈ u := by
  rw [addUnmatched] at h
  cases hl : lookupA i u with
  | some existing =>
    rw [hl] at h
    rcases mem_setA h with rfl | h'
    · exact Or.inl rfl
    · exact Or.inr h'
  | none =>
    rw [hl] at h
    rcases List.mem_append.mp h with h' | h'
    · exact Or.inr h'
    · rw [List.mem_singleton] at h'
      exact Or.inl (by rw [h'])

theorem namePassStep_instQ_pres (Q : String → Prop) (stdKeys : String → List String)
    (st : NamePassState) (κ : String)
    (hPm : ∀ p ∈ st.map, Q p.2.chat.instanceName)
    (hPu : ∀ b ∈ st.unmatched, Q b.1) :
    (∀ p ∈ (namePassStep stdKeys st κ).map, Q p.2.chat.instanceName)
      ∧ ∀ b ∈ (namePassStep stdKeys st κ).unmatched, Q b.1 := by
  rw [namePassStep]
  cases hl : lookupA κ st.map with
  | none => exact ⟨hPm, hPu⟩
  | some lidE =>
    dsimp only
    cases hattempt : (if (normName lidE.chat.name != "" || normName lidE.chat.pushName != "")
        = true then tryMatchCandidates st.map κ lidE (stdKeys lidE.chat.instanceName)
        else none) with
    | none =>
      refine ⟨fun p hp => hPm p (mem_delA hp), ?_⟩
      intro b hb
      rcases mem_addUnmatched hb with hb1 | hb'
      · rw [hb1]
        exact hPm (κ, lidE) (lookupA_mem hl)
      · exact hPu b hb'
    | some mp' =>
      have hshape : ∃ k, ∃ std, lookupA k st.map = some std
          ∧ mp' = delA κ (setA k (mergeLidIntoStd lidE std) st.map) := by
        by_cases hg : (normName lidE.chat.name != "" || normName lidE.chat.pushName != "")
            = true
        · rw [if_pos hg] at hattempt
          obtain ⟨k, _, std, hlstd, hres⟩ := tryMatch_some_shape hattempt
          exact ⟨k, std, hlstd, hres⟩
        · rw [if_neg hg] at hattempt
          cases hattempt
      obtain ⟨k, std, hlstd, rfl⟩ := hshape
      refine ⟨?_, hPu⟩
      intro p hp
      rcases mem_setA (mem_delA hp) with rfl | hp'
      · have hid := mergeLidIntoStd_ident lidE std
        rw [show ((k, mergeLidIntoStd lidE std) : String × Entry).2.chat.instanceName
          = (mergeLidIntoStd lidE std).chat.instanceName from rfl, hid.2.2.1]
        exact hPm (k, std) (lookupA_mem hlstd)
      · exact hPm p hp'

theorem dedup_bucket_names (chats : List Chat) (Q : String → Prop)
    (hin : ∀ c ∈ chats, Q c.instanceName) :
    ∀ b ∈ (deduplicateChats chats).unmatchedLidsByInstance, Q b.1 := by
  have hkp : ∀ st : KeyPassState, (∀ p ∈ st.map, Q p.2.chat.instanceName) →
      ∀ ds : List Chat, (∀ c ∈ ds, Q c.instanceName) →
      ∀ p ∈ (ds.foldl keyPassStep st).map, Q p.2.chat.instanceName := by
    intro st hP ds
    induction ds generalizing st with
    | nil => exact fun _ => hP
    | cons d rest ih =>
      intro hds
      rw [List.foldl_cons]
      exact ih (keyPassStep st d)
        (keyPassStep_instQ_pres Q st d (hds d (List.mem_cons_self d rest)) hP)
        (fun x hx => hds x (List.mem_cons_of_mem d hx))
  have hkpQ : ∀ p ∈ (keyPass chats).map, Q p.2.chat.instanceName :=
    hkp ⟨[], []⟩ (by simp) chats hin
  have hnp : ∀ κs : List String, ∀ st : NamePassState,
      (∀ p ∈ st.map, Q p.2.chat.instanceName) → (∀ b ∈ st.unmatched, Q b.1) →
      ((∀ p ∈ (κs.foldl (namePassStep (standardKeysFor (keyPass chats))) st).map,
          Q p.2.chat.instanceName)
        ∧ ∀ b ∈ (κs.foldl (namePassStep (standardKeysFor (keyPass chats))) st).unmatched,
            Q b.1) := by
    intro κs
    induction κs with
    | nil => exact fun st hPm hPu => ⟨hPm, hPu⟩
    | cons κ rest ih =>
      intro st hPm hPu
      rw [List.foldl_cons]
      obtain ⟨h1, h2⟩ := namePassStep_instQ_pres Q (standardKeysFor (keyPass chats)) st κ
        hPm hPu
      exact ih (namePassStep (standardKeysFor (keyPass chats)) st κ) h1 h2
  have hfin := (hnp (unmatchedLidKeysOf (keyPass chats))
    ⟨(keyPass chats).map, []⟩ hkpQ (by simp)).2
  exact hfin

end Wpp
namespace Wpp

theorem find?_erase_middle {α : Type} (p : α → Bool) (x : α) (hx : p x = false) :
    ∀ pre post : List α, (pre ++ x :: post).find? p = (pre ++ post).find? p := by
  intro pre post
  induction pre with
  | nil =>
    rw [List.nil_append, List.nil_append, List.find?_cons, hx]
  | cons y pre' ih =>
    rw [List.cons_append, List.cons_append, List.find?_cons, List.find?_cons]
    cases p y
    · exact ih
    · rfl

theorem resolveInstanceLids_erase_middle (cenv : String → Option (List Contact))
    (pre post : List InstanceRef) (x : InstanceRef) (cs : List Chat)
    (b : String × List String) (hb : b.1 ≠ x.displayName) :
    resolveInstanceLids cenv (pre ++ x :: post) cs b
      = resolveInstanceLids cenv (pre ++ post) cs b := by
  rw [resolveInstanceLids, resolveInstanceLids]
  rw [find?_erase_middle (fun i => i.displayName == b.1) x
    (beq_eq_false_iff_ne.mpr (fun h => hb h.symm)) pre post]

theorem resolveUnmatchedLids_erase_middle (cenv : String → Option (List Contact))
    (pre post : List InstanceRef) (x : InstanceRef)
    (unmatched : List (String × List String))
    (hQ : ∀ b ∈ unmatched, b.1 ≠ x.displayName) :
    ∀ cs : List Chat,
    resolveUnmatchedLids cenv cs unmatched (pre ++ x :: post)
      = resolveUnmatchedLids cenv cs unmatched (pre ++ post) := by
  induction unmatched with
  | nil => exact fun cs => rfl
  | cons b rest ih =>
    intro cs
    rw [resolveUnmatchedLids, resolveUnmatchedLids, List.foldl_cons, List.foldl_cons,
      resolveInstanceLids_erase_middle cenv pre post x cs b
        (hQ b (List.mem_cons_self b rest))]
    exact ih (fun y hy => hQ y (List.mem_cons_of_mem b hy))
      (resolveInstanceLids cenv (pre ++ post) cs b)

theorem fetchInstanceChats_inst (env : String → FetchChatsResult) (i : InstanceRef) :
    ∀ c ∈ (fetchInstanceChats env i).chats, c.instanceName = i.displayName := by
  rw [fetchInstanceChats]
  cases env i.fullName with
  | netError => intro c hc; cases hc
  | httpFail => intro c hc; cases hc
  | nonArray => intro c hc; cases hc
  | ok chats =>
    intro c hc
    obtain ⟨d, _, hd⟩ := List.mem_map.mp hc
    rw [← hd]

theorem fetchInstanceChats_fail (env : String → FetchChatsResult) (i : InstanceRef)
    (h : env i.fullName = .netError ∨ env i.fullName = .httpFail) :
    fetchInstanceChats env i = ⟨[], false, i.displayName⟩ := by
  rcases h with h | h
  · rw [fetchInstanceChats, h]
  · rw [fetchInstanceChats, h]

end Wpp
namespace Wpp

/-- C8: one failing per-instance chat-list call (thrown network error or
non-success status) leaves every other instance's contribution intact: the
aggregate's chat list equals the one computed without the failing instance,
the failing instance is reported as `connected = false` in position, it
contributes an empty chat list, and the connected count ignores it. -/
theorem c8_failure_isolation (env : String → FetchChatsResult)
    (cenv : String → Option (List Contact))
    (pre post : List InstanceRef) (inst : InstanceRef)
    (hfail : env inst.fullName = .netError ∨ env inst.fullName = .httpFail)
    (hdn : ∀ i ∈ pre ++ post, i.displayName ≠ inst.displayName) :
    fetchInstanceChats env inst = ⟨[], false, inst.displayName⟩
    ∧ (getChatsCore env cenv (pre ++ inst :: post)).chats
        = (getChatsCore env cenv (pre ++ post)).chats
    ∧ (getChatsCore env cenv (pre ++ inst :: post)).instances
        = (getChatsCore env cenv pre).instances
          ++ (inst.displayName, false) :: (getChatsCore env cenv post).instances
    ∧ (getChatsCore env cenv (pre ++ inst :: post)).connectedInstances
        = (getChatsCore env cenv (pre ++ post)).connectedInstances
    ∧ (getChatsCore env cenv (pre ++ inst :: post)).totalInstances
        = (getChatsCore env cenv (pre ++ post)).totalInstances + 1 := by
  have hfi := fetchInstanceChats_fail env inst hfail
  have hstat : ∀ us : List InstanceRef, (getChatsCore env cenv us).instances
      = us.map (fun i => ((fetchInstanceChats env i).name,
          (fetchInstanceChats env i).connected)) := by
    intro us
    show ((us.map (fetchInstanceChats env)).map (fun r => (r.name, r.connected))) = _
    rw [List.map_map]
    rfl
  have hraw : ((pre ++ inst :: post).map (fetchInstanceChats env)).flatMap (·.chats)
      = ((pre ++ post).map (fetchInstanceChats env)).flatMap (·.chats) := by
    rw [List.map_append, List.map_append, List.map_cons, hfi,
      List.flatMap_append, List.flatMap_append, List.flatMap_cons]
    show _ ++ ([] ++ _) = _
    rw [List.nil_append]
  have hinNames : ∀ c ∈ ((pre ++ post).map (fetchInstanceChats env)).flatMap (·.chats),
      c.instanceName ≠ inst.displayName := by
    intro c hc
    obtain ⟨r, hr, hcr⟩ := List.mem_flatMap.mp hc
    obtain ⟨i, hi, hir⟩ := List.mem_map.mp hr
    rw [fetchInstanceChats_inst env i c (hir ▸ hcr)]
    exact hdn i hi
  have hcore : ∀ us : List InstanceRef, (getChatsCore env cenv us).chats
      = sortChats (if (deduplicateChats
            ((us.map (fetchInstanceChats env)).flatMap (·.chats))).unmatchedLidsByInstance
            ≠ [] then
          resolveUnmatchedLids cenv
            (deduplicateChats
              ((us.map (fetchInstanceChats env)).flatMap (·.chats))).chats
            (deduplicateChats
              ((us.map (fetchInstanceChats env)).flatMap (·.chats))).unmatchedLidsByInstance
            us
        else (deduplicateChats
            ((us.map (fetchInstanceChats env)).flatMap (·.chats))).chats) :=
    fun us => rfl
  have hchats : (getChatsCore env cenv (pre ++ inst :: post)).chats
      = (getChatsCore env cenv (pre ++ post)).chats := by
    rw [hcore, hcore, hraw]
    by_cases hu : (deduplicateChats
        (((pre ++ post).map (fetchInstanceChats env)).flatMap
          (·.chats))).unmatchedLidsByInstance ≠ []
    · rw [if_pos hu, if_pos hu]
      rw [resolveUnmatchedLids_erase_middle cenv pre post inst _
        (dedup_bucket_names _ (· ≠ inst.displayName) hinNames)]
    · rw [if_neg hu, if_neg hu]
  have hinst_eq : (getChatsCore env cenv (pre ++ inst :: post)).instances
      = (getChatsCore env cenv pre).instances
        ++ (inst.displayName, false) :: (getChatsCore env cenv post).instances := by
    rw [hstat (pre ++ inst :: post), hstat pre, hstat post, List.map_append, List.map_cons,
      hfi]
  have hinst_wo : (getChatsCore env cenv (pre ++ post)).instances
      = (getChatsCore env cenv pre).instances ++ (getChatsCore env cenv post).instances := by
    rw [hstat (pre ++ post), hstat pre, hstat post, List.map_append]
  have hconn : ∀ us : List InstanceRef, (getChatsCore env cenv us).connectedInstances
      = (((getChatsCore env cenv us).instances).filter (·.2)).length := fun us => rfl
  have htot : ∀ us : List InstanceRef, (getChatsCore env cenv us).totalInstances
      = us.length := fun us => rfl
  refine ⟨hfi, hchats, hinst_eq, ?_, ?_⟩
  · rw [hconn, hconn, hinst_eq, hinst_wo, List.filter_append, List.filter_append,
      List.filter_cons_of_neg (by exact Bool.false_ne_true)]
  · rw [htot, htot, List.length_append, List.length_append, List.length_cons]
    omega

end Wpp
namespace Wpp

/-- Witness for C8 at a concrete environment: one healthy instance and one
whose chat-list call throws. -/
theorem c8_witness :
    (c8Env c8Bad.fullName = FetchChatsResult.netError
      ∨ c8Env c8Bad.fullName = FetchChatsResult.httpFail)
    ∧ (∀ i ∈ [c8Good] ++ [], i.displayName ≠ c8Bad.displayName)
    ∧ (fetchInstanceChats c8Env c8Bad = ⟨[], false, c8Bad.displayName⟩
      ∧ (getChatsCore c8Env c8Cenv ([c8Good] ++ c8Bad :: [])).chats
          = (getChatsCore c8Env c8Cenv ([c8Good] ++ [])).chats
      ∧ (getChatsCore c8Env c8Cenv ([c8Good] ++ c8Bad :: [])).instances
          = (getChatsCore c8Env c8Cenv [c8Good]).instances
            ++ (c8Bad.displayName, false) :: (getChatsCore c8Env c8Cenv []).instances
      ∧ (getChatsCore c8Env c8Cenv ([c8Good] ++ c8Bad :: [])).connectedInstances
          = (getChatsCore c8Env c8Cenv ([c8Good] ++ [])).connectedInstances
      ∧ (getChatsCore c8Env c8Cenv ([c8Good] ++ c8Bad :: [])).totalInstances
          = (getChatsCore c8Env c8Cenv ([c8Good] ++ [])).totalInstances + 1) :=
  ⟨Or.inl rfl, by decide,
    c8_failure_isolation c8Env c8Cenv [c8Good] [] c8Bad (Or.inl rfl) (by decide)⟩

end Wpp
